import Mathlib

/-!
# scythe: weekly hours reconciliation

A shallow embedding of `src/main.go` and of the parts of the Go standard library the program
relies on, followed by theorems about the date snapping (`findStartDate`, `findEndDate`), the
week partition loop, the hours aggregation (`calculateHours`), the running balance and the
ledger updates of `main`.

Modelling conventions.

* Package time is modelled at two levels.  Namespace `zoned` holds `time.Time` as the program
  uses it: an instant (Unix seconds) shown in a `Location` with its table of zone transitions.
  There `Date` resolves a wall clock reading through the zone and `AddDate` rebuilds the time
  through `Date`, as Go does, so that a day step lands on the same local day, or skips one,
  where a transition removes local time.  Namespace `time` is the calendar level: a time is
  its local calendar day (counted from 0001-01-01 in the proleptic Gregorian calendar, as Go
  does internally) and `AddDate(0, 0, n)` moves `n` days.  The calendar program is the located
  program reduced to local days in every location without transitions
  (`zoned.calendar_model_of_fixed_location`); the theorems stated on it speak of runs in which
  each day step lands on the adjacent local day.  Nanoseconds are left out: `AddDate` carries
  them over unchanged and the program never reads them.
* `float64` is IEEE 754 binary64 with round-to-nearest-even.  A finite value is a sign and a
  magnitude counted in units of `2^-1074` (the smallest subnormal), so every finite binary64
  value is such an integer.
* Loops that Go writes as `for cond { ... }` take a `fuel` argument and answer
  `Err.OutOfFuel` when it runs out; theorems show how much fuel suffices, or that none does.
* `log.Fatal` is `Err.Fatal`, a run-time panic (index out of range) is `Err.Panic`.
* Calls that leave the process (console, Harvest, the spreadsheet service) are inputs of the
  model; `sheet.Update` calls are recorded in the order they are made.
-/

namespace Scythe

/-! ## float64 -/

/-- IEEE 754 binary64 value: a finite number `(-1)^neg * mag * 2^-1074`, an infinity, or NaN. -/
inductive Float64 where
  | fin (neg : Bool) (mag : Nat)
  | inf (neg : Bool)
  | nan
deriving DecidableEq, Repr

namespace Float64

/-- Number of binary digits of `n`, by halving at most `fuel` times. -/
def bitLenFuel : Nat → Nat → Nat
  | 0, _ => 0
  | fuel + 1, n => if n = 0 then 0 else bitLenFuel fuel (n / 2) + 1

/-- Number of binary digits of `n` (0 for 0). -/
def bitLen (n : Nat) : Nat := bitLenFuel n n

/-- Round the exact magnitude `n`, given in units of `2^-(1074 + extra)`, to the nearest
binary64 magnitude: at most 53 significant bits and a whole number of units of `2^-1074`,
ties to even, in one rounding step; magnitudes from `2^1024` on overflow to infinity. -/
def roundAt (neg : Bool) (n extra : Nat) : Float64 :=
  let k := max (bitLen n - 53) extra
  let q := n / 2 ^ k
  let r := n % 2 ^ k
  let q := if 2 ^ k < 2 * r ∨ (2 * r = 2 ^ k ∧ q % 2 = 1) then q + 1 else q
  let m := q * 2 ^ (k - extra)
  if 2 ^ 2098 ≤ m then inf neg else fin neg m

/-- Round the exact magnitude `n` (in units of `2^-1074`) to the nearest binary64 magnitude. -/
def round (neg : Bool) (n : Nat) : Float64 := roundAt neg n 0

/-- Float addition `x + y`. -/
def add : Float64 → Float64 → Float64
  | nan, _ => nan
  | _, nan => nan
  | inf s, inf s2 => if s = s2 then inf s else nan
  | inf s, fin _ _ => inf s
  | fin _ _, inf s => inf s
  | fin s a, fin s2 b =>
    if s = s2 then round s (a + b)
    else if a = b then fin false 0
    else if b < a then round s (a - b)
    else round s2 (b - a)

/-- Float negation `-x`. -/
def neg : Float64 → Float64
  | fin s a => fin (!s) a
  | inf s => inf (!s)
  | nan => nan

/-- Float subtraction `x - y`. -/
def sub (x y : Float64) : Float64 := add x (neg y)

instance : Add Float64 := ⟨add⟩

instance : Sub Float64 := ⟨sub⟩

/-- The constant `float64(0)`. -/
def zero : Float64 := fin false 0

/-- The binary64 value nearest to the fraction `num / den`, negated when `neg` is set: the
value a decimal literal such as `0.1` (`ofRatio false 1 10`) denotes.  The quotient is taken
to one bit below the unit `2^-1074`, a sticky bit records a non-zero remainder, and the result
is rounded once. -/
def ofRatio (neg : Bool) (num den : Nat) : Float64 :=
  if den = 0 then nan
  else
    let q := (num * 2 ^ 1075) / den
    let r := (num * 2 ^ 1075) % den
    roundAt neg (2 * q + (if r = 0 then 0 else 1)) 2

/-- The quota constant `float64(37.5)` of `main`. -/
def quota : Float64 := ofRatio false 75 2

end Float64

/-! ## Package time on calendar days -/

namespace time

/-- A `time.Time` at the calendar level: its local calendar day (days since 0001-01-01). -/
structure Time where
  abs : Int
deriving DecidableEq, Repr

/-- Weekday `time.Sunday`. -/
def Sunday : Int := 0

/-- Weekday `time.Monday`. -/
def Monday : Int := 1

/-- Leap-year test `isLeap` of package time. -/
def isLeap (year : Int) : Bool :=
  year % 4 == 0 && (year % 100 != 0 || year % 400 == 0)

/-- Days of a non-leap year before the first of `month` (January is 1): the table
`daysBefore` of package time. -/
def daysBefore (month : Int) : Int :=
  if month ≤ 1 then 0 else if month = 2 then 31 else if month = 3 then 59
  else if month = 4 then 90 else if month = 5 then 120 else if month = 6 then 151
  else if month = 7 then 181 else if month = 8 then 212 else if month = 9 then 243
  else if month = 10 then 273 else if month = 11 then 304 else if month = 12 then 334
  else 365

/-- Year and zero-based day of the year of day number `abs`, by 400-, 100-, 4- and 1-year
cycles as in `absDate` of package time. -/
def absYear (abs : Int) : Int × Int :=
  let n400 := abs / 146097
  let d := abs - 146097 * n400
  let n := d / 36524
  let n100 := n - n / 4
  let d := d - 36524 * n100
  let n4 := d / 1461
  let d := d - 1461 * n4
  let n := d / 365
  let n1 := n - n / 4
  let yday := d - 365 * n1
  (400 * n400 + 100 * n100 + 4 * n4 + n1 + 1, yday)

/-- Month and day of the month of the zero-based day `yday` of a year. -/
def monthDay (leap : Bool) (yday : Int) : Int × Int :=
  let l : Int := if leap then 1 else 0
  if yday < 31 then (1, yday + 1)
  else if yday < 59 + l then (2, yday - 31 + 1)
  else if yday < 90 + l then (3, yday - (59 + l) + 1)
  else if yday < 120 + l then (4, yday - (90 + l) + 1)
  else if yday < 151 + l then (5, yday - (120 + l) + 1)
  else if yday < 181 + l then (6, yday - (151 + l) + 1)
  else if yday < 212 + l then (7, yday - (181 + l) + 1)
  else if yday < 243 + l then (8, yday - (212 + l) + 1)
  else if yday < 273 + l then (9, yday - (243 + l) + 1)
  else if yday < 304 + l then (10, yday - (273 + l) + 1)
  else if yday < 334 + l then (11, yday - (304 + l) + 1)
  else (12, yday - (334 + l) + 1)

/-- Method `t.Date()`: year, month and day of `t`. -/
def Time.Date (t : Time) : Int × Int × Int :=
  let (year, yday) := absYear t.abs
  let (month, day) := monthDay (isLeap year) yday
  (year, month, day)

/-- Days from 0001-01-01 to the first of January of `year`. -/
def daysSinceEpoch (year : Int) : Int :=
  let y := year - 1
  let n400 := y / 400
  let y := y - 400 * n400
  let n100 := y / 100
  let y := y - 100 * n100
  let n4 := y / 4
  let y := y - 4 * n4
  146097 * n400 + 36524 * n100 + 1461 * n4 + 365 * y

/-- Function `time.Date(year, month, day, ...)`: the month is normalised into 1..12, the day
may overflow its month in either direction. -/
def Date (year month day : Int) : Time :=
  let m := month - 1
  let year := year + m / 12
  let month := m % 12 + 1
  let d := daysSinceEpoch year + daysBefore month
  let d := if isLeap year && month ≥ 3 then d + 1 else d
  ⟨d + (day - 1)⟩

/-- Method `t.AddDate(years, months, days)`. -/
def Time.AddDate (t : Time) (years months days : Int) : Time :=
  let (year, month, day) := t.Date
  time.Date (year + years) (month + months) (day + days)

/-- Method `t.Weekday()`; 0001-01-01 is a Monday. -/
def Time.Weekday (t : Time) : Int := (t.abs + 1) % 7

/-- The decimal digit character of `n % 10`. -/
def digitChar (n : Nat) : Char := Char.ofNat (48 + n % 10)

/-- Decimal digits of `n`, most significant first. -/
def decimalFuel : Nat → Nat → List Char
  | 0, _ => []
  | fuel + 1, n =>
    if n < 10 then [digitChar n] else decimalFuel fuel (n / 10) ++ [digitChar n]

/-- Decimal digits of `n`, most significant first (`"0"` for 0). -/
def decimal (n : Nat) : List Char := decimalFuel (n + 1) n

/-- Value of a string of decimal digits (the inverse of `decimal`). -/
def charsVal (cs : List Char) : Nat :=
  cs.foldl (fun acc c => 10 * acc + (c.toNat - 48)) 0

/-- Value of an optionally signed string of decimal digits (the inverse of `appendInt`). -/
def intVal : List Char → Int
  | '-' :: rest => -(charsVal rest : Int)
  | cs => (charsVal cs : Int)

/-- Helper `appendInt` of package time: the decimal form of `x`, zero-padded to `width`
digits, with a leading minus sign for a negative `x`. -/
def appendInt (x : Int) (width : Nat) : List Char :=
  let ds := decimal x.natAbs
  (if x < 0 then ['-'] else []) ++ (List.replicate (width - ds.length) '0' ++ ds)

/-- Layout interpreter for the reference-time elements this program uses: `2006` (year),
`01` and `1` (month), `02` and `2` (day); any other character is copied. -/
def formatLayout : List Char → Int → Int → Int → List Char
  | '2' :: '0' :: '0' :: '6' :: rest, y, m, d => appendInt y 4 ++ formatLayout rest y m d
  | '0' :: '1' :: rest, y, m, d => appendInt m 2 ++ formatLayout rest y m d
  | '0' :: '2' :: rest, y, m, d => appendInt d 2 ++ formatLayout rest y m d
  | '1' :: rest, y, m, d => appendInt m 0 ++ formatLayout rest y m d
  | '2' :: rest, y, m, d => appendInt d 0 ++ formatLayout rest y m d
  | c :: rest, y, m, d => c :: formatLayout rest y m d
  | [], _, _, _ => []

/-- Method `t.Format(layout)`. -/
def Time.Format (t : Time) (layout : String) : String :=
  let (year, month, day) := t.Date
  String.mk (formatLayout layout.data year month day)

/-- Byte test `isDigit` of package time. -/
def isDigit (c : Char) : Bool := 48 ≤ c.toNat && c.toNat ≤ 57

/-- Value of a decimal digit character. -/
def digitVal (c : Char) : Int := (c.toNat : Int) - 48

/-- Helper `getnum(s, true)` of package time: exactly two leading digits. -/
def getnum2 : List Char → Option (Int × List Char)
  | a :: b :: rest =>
    if isDigit a && isDigit b then some (digitVal a * 10 + digitVal b, rest) else none
  | _ => none

/-- The `2006` element when parsing: exactly four leading digits. -/
def getYear4 : List Char → Option (Int × List Char)
  | a :: b :: c :: d :: rest =>
    if isDigit a && isDigit b && isDigit c && isDigit d then
      some (digitVal a * 1000 + digitVal b * 100 + digitVal c * 10 + digitVal d, rest)
    else none
  | _ => none

/-- Days in `month` of `year`: `daysIn` of package time. -/
def daysIn (month year : Int) : Int :=
  if month = 2 ∧ isLeap year then 29 else daysBefore (month + 1) - daysBefore month

/-- Parsing a value against the layout `2006-01-02`: four digits, a dash, two digits, a dash,
two digits and nothing more; the month must be 1..12 and the day must exist in that month. -/
def parseYMD (value : List Char) : Option Time :=
  match getYear4 value with
  | some (year, '-' :: rest) =>
    match getnum2 rest with
    | some (month, '-' :: rest) =>
      match getnum2 rest with
      | some (day, []) =>
        if month ≤ 0 ∨ 12 < month then none
        else if day < 1 ∨ daysIn month year < day then none
        else some (time.Date year month day)
      | _ => none
    | _ => none
  | _ => none

/-- Function `time.ParseInLocation(layout, value, loc)` for the one layout the program parses
with, `2006-01-02`; `none` stands for a non-nil error. -/
def ParseInLocation (layout value : String) : Option Time :=
  if layout = "2006-01-02" then parseYMD value.data else none

end time

/-! ## The program: types -/

open time (Time)

/-- How a run can stop without a result. -/
inductive Err where
  | Fatal
  | Panic
  | OutOfFuel
deriving DecidableEq, Repr

deriving instance DecidableEq for Except

/-- Struct `Config` of main.go. -/
structure Config where
  SpreadsheetID : String
  Employee : String
  Category : String
  HarvestSubdomain : String
  HarvestUsername : String
  HarvestUsernameID : String
  HarvestPassword : String
deriving DecidableEq, Repr

/-- Field `DayEntry` of an element of `HarvestReport`. -/
structure DayEntry where
  Notes : String
  Hours : Float64
  ProjectID : Int
  TaskID : Int
deriving DecidableEq, Repr

/-- One element of `HarvestReport`. -/
structure HarvestEntry where
  DayEntry : DayEntry
deriving DecidableEq, Repr

/-- Type `HarvestReport` of main.go. -/
abbrev HarvestReport := List HarvestEntry

/-- Struct `Week` of main.go. -/
structure Week where
  Start : Time
  End : Time
  Of : String
  Pto : Float64
  BillableEntries : HarvestReport
  BillableHours : Float64
  NonBillableEntries : HarvestReport
  NonBillableHours : Float64
deriving DecidableEq, Repr

/-- A cell of a sheet (package spreadsheet). -/
structure Cell where
  Row : Nat
  Column : Nat
  Value : String
  Note : String
deriving DecidableEq, Repr

/-- A sheet as fetched: its rows of cells. -/
structure Sheet where
  Rows : List (List Cell)
deriving DecidableEq, Repr

/-- One call `sheet.Update(row, column, val)`. -/
structure CellUpdate where
  row : Int
  column : Int
  val : String
deriving DecidableEq, Repr

/-- Library functions of package strconv the program calls; `ParseFloat` answers `none` for a
non-nil error, `FormatFloat` is `strconv.FormatFloat(x, 'f', 2, 64)`. -/
structure Strconv where
  ParseFloat : String → Option Float64
  FormatFloat : Float64 → String

/-! ## The program: functions -/

/-- Function `calculateHours` (main.go 57-69). -/
def calculateHours (w : Week) : Week :=
  let billable := w.BillableEntries.foldl (fun acc r => acc + r.DayEntry.Hours) Float64.zero
  let w := { w with BillableHours := billable }
  let non := w.NonBillableEntries.foldl (fun acc r => acc + r.DayEntry.Hours) Float64.zero
  { w with NonBillableHours := non }

/-- Function `findStartDate` (main.go 71-77). -/
def findStartDate : Nat → Time → Except Err Time
  | 0, _ => .error .OutOfFuel
  | fuel + 1, t =>
    if t.Weekday ≠ time.Monday then findStartDate fuel (t.AddDate 0 0 (-1))
    else .ok t

/-- Function `findEndDate` (main.go 81-87). -/
def findEndDate : Nat → Time → Except Err Time
  | 0, _ => .error .OutOfFuel
  | fuel + 1, t =>
    if t.Weekday ≠ time.Sunday then findEndDate fuel (t.AddDate 0 0 1)
    else .ok t

/-- Start date resolution of `main` (main.go 142, 157-171): the default is
`findStartDate(now)`; an input of at most two bytes is appended to the year and month of that
default. -/
def resolveStartDate (fuel : Nat) (now : Time) (input_start : String) : Except Err Time := do
  let start_date ← findStartDate fuel now
  if input_start.utf8ByteSize ≠ 0 then
    if input_start.utf8ByteSize ≤ 2 then
      match time.ParseInLocation "2006-01-02"
          (start_date.Format "2006-01" ++ "-" ++ input_start) with
      | none => .error .Fatal
      | some date => findStartDate fuel date
    else
      match time.ParseInLocation "2006-01-02" input_start with
      | none => .error .Fatal
      | some date => findStartDate fuel date
  else pure start_date

/-- End date resolution of `main` (main.go 143, 180-194). -/
def resolveEndDate (fuel : Nat) (now : Time) (input_end : String) : Except Err Time := do
  let end_date ← findEndDate fuel now
  if input_end.utf8ByteSize ≠ 0 then
    if input_end.utf8ByteSize ≤ 2 then
      match time.ParseInLocation "2006-01-02"
          (end_date.Format "2006-01" ++ "-" ++ input_end) with
      | none => .error .Fatal
      | some date => findEndDate fuel date
    else
      match time.ParseInLocation "2006-01-02" input_end with
      | none => .error .Fatal
      | some date => findEndDate fuel date
  else pure end_date

/-- The value `Week{Start: d, End: e, Of: d.Format("1/2/2006")}`; the other fields are zero. -/
def newWeek (d e : Time) : Week :=
  { Start := d, End := e, Of := d.Format "1/2/2006", Pto := Float64.zero,
    BillableEntries := [], BillableHours := Float64.zero,
    NonBillableEntries := [], NonBillableHours := Float64.zero }

/-- The week partition loop of `main` (main.go 200-205), from cursor `d` with the weeks
collected so far. -/
def weeksLoop : Nat → Time → Time → List Week → Except Err (List Week)
  | 0, _, _, _ => .error .OutOfFuel
  | fuel + 1, d, end_date, weeks =>
    if d.Format "2006-01-02" != end_date.Format "2006-01-02" then
      if d.Weekday = time.Monday then
        match findEndDate fuel d with
        | .ok e => weeksLoop fuel (d.AddDate 0 0 1) end_date (weeks ++ [newWeek d e])
        | .error err => .error err
      else weeksLoop fuel (d.AddDate 0 0 1) end_date weeks
    else .ok weeks

/-- The week partition of `main` (main.go 198-205). -/
def partitionWeeks (fuel : Nat) (start_date end_date : Time) : Except Err (List Week) :=
  weeksLoop fuel start_date end_date []

/-- The partition expected of the `n` days from day number `d` on: one week for each Monday
among them, in increasing order, from that Monday to the Sunday six days later. -/
def weeksFrom : Nat → Int → List Week
  | 0, _ => []
  | n + 1, d =>
    if d % 7 = 0 then newWeek ⟨d⟩ ⟨d + 6⟩ :: weeksFrom n (d + 1) else weeksFrom n (d + 1)

/-- Go indexing `xs[i]`: a panic when `i` is out of range. -/
def index {α : Type} (xs : List α) (i : Int) : Except Err α :=
  if i < 0 then .error .Panic
  else
    match xs.get? i.toNat with
    | some x => .ok x
    | none => .error .Panic

/-- Reading the previous balance (main.go 225-230): the index of the last row and the value
of `previousOverUnder`. -/
def readPrevious (lib : Strconv) (sheet : Sheet) : Except Err (Int × Float64) := do
  let lastRow : Int := (sheet.Rows.length : Int) - 1
  let row ← index sheet.Rows lastRow
  let cell ← index row 7
  let pov := cell.Value
  match lib.ParseFloat pov with
  | some v => pure (lastRow, v)
  | none => pure (lastRow, Float64.zero)

/-- Body of the loop over the billable entries (main.go 243-248). -/
def entryUpdates (lib : Strconv) (config : Config) (w : Week)
    (st : Int × List CellUpdate) (e : HarvestEntry) : Int × List CellUpdate :=
  let lastRow := st.1 + 1
  (lastRow, st.2 ++
    [⟨lastRow, 0, w.Of⟩, ⟨lastRow, 1, config.Employee⟩, ⟨lastRow, 2, config.Category⟩,
     ⟨lastRow, 3, lib.FormatFloat e.DayEntry.Hours⟩, ⟨lastRow, 4, e.DayEntry.Notes⟩])

/-- What one iteration of the loop over the weeks produces. -/
structure WeekResult where
  week : Week
  lastRow : Int
  previousOverUnder : Float64
  updates : List CellUpdate
  total : Float64
  overUnder : Float64
deriving DecidableEq, Repr

/-- One iteration of the loop over the weeks (main.go 225-258), for the sheet as fetched, the
paid time off read from the console and the billable and non-billable entries fetched. -/
def processWeek (lib : Strconv) (config : Config) (sheet : Sheet) (week : Week)
    (pto : Float64) (billable nonBillable : HarvestReport) : Except Err WeekResult := do
  let (lastRow, previousOverUnder) ← readPrevious lib sheet
  let w := { week with Pto := pto }
  let w := { w with BillableEntries := billable }
  let w := { w with NonBillableEntries := nonBillable }
  let w := calculateHours w
  let (lastRow, updates) := w.BillableEntries.foldl (entryUpdates lib config w) (lastRow, [])
  let total := w.BillableHours + w.NonBillableHours + w.Pto
  let overUnder := (total + previousOverUnder) - Float64.quota
  let updates := updates ++
    [⟨lastRow, 7, lib.FormatFloat overUnder⟩, ⟨lastRow, 8, lib.FormatFloat w.Pto⟩,
     ⟨lastRow, 9, lib.FormatFloat w.NonBillableHours⟩]
  pure ⟨w, lastRow, previousOverUnder, updates, total, overUnder⟩

/-- Index of the last row of the sheet as fetched. -/
def Sheet.lastRow (sheet : Sheet) : Int := (sheet.Rows.length : Int) - 1

end Scythe

namespace Scythe

/-! ## Reference definitions used in the statements -/

/-- The sum of the hours of a sequence of entries, accumulated from `0` in sequence order. -/
def sumHours (es : HarvestReport) : Float64 :=
  (es.map (fun e => e.DayEntry.Hours)).foldl (fun acc h => acc + h) Float64.zero

/-- How many multiples of `2^j * 2^-1074` the magnitude of `x` holds (0 when not finite). -/
def Float64.units (j : Nat) : Float64 → Nat
  | .fin _ m => m / 2 ^ j
  | _ => 0

/-- Every entry of `es` is a non-negative finite multiple of `2^j * 2^-1074` hours (with
`j = 1072`: of a quarter of an hour), and the multiples add up to less than `2^53`, so that
every partial sum is again a binary64 value. -/
def ExactHours (j : Nat) (es : HarvestReport) : Prop :=
  (∀ e ∈ es, e.DayEntry.Hours = Float64.fin false (Float64.units j e.DayEntry.Hours * 2 ^ j)) ∧
  (es.map (fun e => Float64.units j e.DayEntry.Hours)).sum < 2 ^ 53

/-- An entry of `h` hours, with empty notes. -/
def entryOfHours (h : Float64) : HarvestEntry :=
  ⟨⟨"", h, 0, 0⟩⟩

/-- A cell holding `value`. -/
def cellOf (value : String) : Cell :=
  ⟨0, 0, value, ""⟩

end Scythe

namespace Scythe

/-! ## Package time with locations -/

namespace zoned

/-- Start of the first zone period (`alpha` of package time). -/
def alpha : Int := -(2 ^ 63)

/-- End of the last zone period (`omega` of package time). -/
def omega : Int := 2 ^ 63 - 1

/-- A `time.Location`: the UTC offset (seconds east of UTC) in force before the first
transition, and the transitions as pairs of the Unix second at which a period starts and the
offset in force from then on, in increasing order of time. -/
structure Location where
  name : String
  offset0 : Int
  tx : List (Int × Int)
deriving DecidableEq, Repr

/-- The offset in force at `sec` and the bounds of its period, scanning the transitions
after a period that starts at `start` with offset `off`. -/
def lookupFrom : Int → Int → List (Int × Int) → Int → Int × Int × Int
  | off, start, [], _ => (off, start, omega)
  | off, start, (w, o) :: rest, sec =>
    if sec < w then (off, start, w) else lookupFrom o w rest sec

/-- Method `l.lookup(sec)`: offset, start and end of the zone period that holds the Unix
second `sec`. -/
def Location.lookup (l : Location) (sec : Int) : Int × Int × Int :=
  lookupFrom l.offset0 alpha l.tx sec

/-- A `time.Time` at a resolution of seconds: the Unix second of the instant and the location
it is shown in. -/
structure Time where
  unix : Int
  loc : Location
deriving DecidableEq, Repr

/-- Method `t.abs()`: seconds from 0001-01-01 00:00:00 to the wall clock reading of `t` in
its location. -/
def Time.abs (t : Time) : Int :=
  t.unix + (t.loc.lookup t.unix).1 + 62135596800

/-- Method `t.Date()`: year, month and day of the wall clock reading. -/
def Time.Date (t : Time) : Int × Int × Int :=
  let (year, yday) := time.absYear (t.abs / 86400)
  let (month, day) := time.monthDay (time.isLeap year) yday
  (year, month, day)

/-- Method `t.Clock()`: hour, minute and second of the wall clock reading. -/
def Time.Clock (t : Time) : Int × Int × Int :=
  let sec := t.abs % 86400
  (sec / 3600, sec % 3600 / 60, sec % 60)

/-- Method `t.Weekday()`. -/
def Time.Weekday (t : Time) : Int :=
  (t.abs + 86400) % 604800 / 86400

/-- The wall clock reading `year-month-day hour:min:sec`, in seconds from 0001-01-01
00:00:00, after the normalisation `time.Date` applies: the month into 1..12, then seconds
into minutes, minutes into hours and hours into days; the day may overflow its month. -/
def wallSeconds (year month day hour min sec : Int) : Int :=
  let m := month - 1
  let year := year + m / 12
  let month := m % 12 + 1
  let min := min + sec / 60
  let sec := sec % 60
  let hour := hour + min / 60
  let min := min % 60
  let day := day + hour / 24
  let hour := hour % 24
  let d := time.daysSinceEpoch year + time.daysBefore month
  let d := if time.isLeap year && month ≥ 3 then d + 1 else d
  let d := d + (day - 1)
  d * 86400 + (hour * 3600 + min * 60 + sec)

/-- Function `time.Date(year, month, day, hour, min, sec, nsec, loc)` at a resolution of
seconds: the wall clock reading is taken as if it were UTC, and the offset of the location is
then subtracted: the offset found at that second if the result lies in the same zone period,
otherwise the offset found at the result. -/
def Date (year month day hour min sec : Int) (loc : Location) : Time :=
  let unix := wallSeconds year month day hour min sec - 62135596800
  let (offset, start, stop) := loc.lookup unix
  if offset ≠ 0 then
    let utc := unix - offset
    let offset := if utc < start ∨ utc ≥ stop then (loc.lookup utc).1 else offset
    ⟨unix - offset, loc⟩
  else ⟨unix, loc⟩

/-- Method `t.AddDate(years, months, days)`. -/
def Time.AddDate (t : Time) (years months days : Int) : Time :=
  let (year, month, day) := t.Date
  let (hour, min, sec) := t.Clock
  zoned.Date (year + years) (month + months) (day + days) hour min sec t.loc

/-- Method `t.Format(layout)`. -/
def Time.Format (t : Time) (layout : String) : String :=
  let (year, month, day) := t.Date
  String.mk (time.formatLayout layout.data year month day)

/-- Parsing a value against the layout `2006-01-02` in a location: midnight of that day. -/
def parseYMD (value : List Char) (loc : Location) : Option Time :=
  match time.getYear4 value with
  | some (year, '-' :: rest) =>
    match time.getnum2 rest with
    | some (month, '-' :: rest) =>
      match time.getnum2 rest with
      | some (day, []) =>
        if month ≤ 0 ∨ 12 < month then none
        else if day < 1 ∨ time.daysIn month year < day then none
        else some (zoned.Date year month day 0 0 0 loc)
      | _ => none
    | _ => none
  | _ => none

/-- Function `time.ParseInLocation(layout, value, loc)` for the layout `2006-01-02`. -/
def ParseInLocation (layout value : String) (loc : Location) : Option Time :=
  if layout = "2006-01-02" then parseYMD value.data loc else none

/-- The local calendar day of `t`, as a time of the calendar model. -/
def Time.day (t : Time) : time.Time := ⟨t.abs / 86400⟩

/-- The location UTC. -/
def utc : Location := ⟨"UTC", 0, []⟩

/-- Pacific/Apia between its transitions of 2011-09-24 and 2012-04-01 (tz database): UTC-10
until 2011-12-30 10:00:00 UTC, the end of Thursday 2011-12-29 local time, and UTC+14 from
then on, so that Friday 2011-12-30 does not exist locally. -/
def apia : Location := ⟨"Pacific/Apia", -36000, [(1325239200, 50400)]⟩

/-- America/Sao_Paulo around the start of daylight saving time 1997 (tz database): UTC-3
until 1997-10-06 03:00:00 UTC, midnight of Monday 1997-10-06 local time, and UTC-2 from then
on, so that the hour from 00:00 to 01:00 of that Monday does not exist locally. -/
def saoPaulo : Location := ⟨"America/Sao_Paulo", -10800, [(876106800, -7200)]⟩

/-- Struct `Week` of main.go over located times. -/
structure Week where
  Start : Time
  End : Time
  Of : String
  Pto : Float64
  BillableEntries : HarvestReport
  BillableHours : Float64
  NonBillableEntries : HarvestReport
  NonBillableHours : Float64
deriving DecidableEq, Repr

/-- The week with its times reduced to their local calendar days. -/
def Week.calendar (w : Week) : Scythe.Week :=
  { Start := w.Start.day, End := w.End.day, Of := w.Of, Pto := w.Pto,
    BillableEntries := w.BillableEntries, BillableHours := w.BillableHours,
    NonBillableEntries := w.NonBillableEntries, NonBillableHours := w.NonBillableHours }

/-- Function `findStartDate` (main.go 71-77) over located times. -/
def findStartDate : Nat → Time → Except Err Time
  | 0, _ => .error .OutOfFuel
  | fuel + 1, t =>
    if t.Weekday ≠ time.Monday then findStartDate fuel (t.AddDate 0 0 (-1))
    else .ok t

/-- Function `findEndDate` (main.go 81-87) over located times. -/
def findEndDate : Nat → Time → Except Err Time
  | 0, _ => .error .OutOfFuel
  | fuel + 1, t =>
    if t.Weekday ≠ time.Sunday then findEndDate fuel (t.AddDate 0 0 1)
    else .ok t

/-- Start date resolution of `main` (main.go 142, 157-171) over located times; the location
is that of `now`. -/
def resolveStartDate (fuel : Nat) (now : Time) (input_start : String) : Except Err Time := do
  let start_date ← findStartDate fuel now
  if input_start.utf8ByteSize ≠ 0 then
    if input_start.utf8ByteSize ≤ 2 then
      match ParseInLocation "2006-01-02"
          (start_date.Format "2006-01" ++ "-" ++ input_start) start_date.loc with
      | none => .error .Fatal
      | some date => findStartDate fuel date
    else
      match ParseInLocation "2006-01-02" input_start start_date.loc with
      | none => .error .Fatal
      | some date => findStartDate fuel date
  else pure start_date

/-- End date resolution of `main` (main.go 143, 180-194) over located times. -/
def resolveEndDate (fuel : Nat) (now : Time) (input_end : String) : Except Err Time := do
  let end_date ← findEndDate fuel now
  if input_end.utf8ByteSize ≠ 0 then
    if input_end.utf8ByteSize ≤ 2 then
      match ParseInLocation "2006-01-02"
          (end_date.Format "2006-01" ++ "-" ++ input_end) end_date.loc with
      | none => .error .Fatal
      | some date => findEndDate fuel date
    else
      match ParseInLocation "2006-01-02" input_end end_date.loc with
      | none => .error .Fatal
      | some date => findEndDate fuel date
  else pure end_date

/-- The value `Week{Start: d, End: e, Of: d.Format("1/2/2006")}` over located times. -/
def newWeek (d e : Time) : Week :=
  { Start := d, End := e, Of := d.Format "1/2/2006", Pto := Float64.zero,
    BillableEntries := [], BillableHours := Float64.zero,
    NonBillableEntries := [], NonBillableHours := Float64.zero }

/-- The week partition loop of `main` (main.go 200-205) over located times. -/
def weeksLoop : Nat → Time → Time → List Week → Except Err (List Week)
  | 0, _, _, _ => .error .OutOfFuel
  | fuel + 1, d, end_date, weeks =>
    if d.Format "2006-01-02" != end_date.Format "2006-01-02" then
      if d.Weekday = time.Monday then
        match findEndDate fuel d with
        | .ok e => weeksLoop fuel (d.AddDate 0 0 1) end_date (weeks ++ [newWeek d e])
        | .error err => .error err
      else weeksLoop fuel (d.AddDate 0 0 1) end_date weeks
    else .ok weeks

/-- The week partition of `main` (main.go 198-205) over located times. -/
def partitionWeeks (fuel : Nat) (start_date end_date : Time) : Except Err (List Week) :=
  weeksLoop fuel start_date end_date []

end zoned

end Scythe

namespace Scythe

/-! ## Calendar arithmetic -/

namespace time

theorem absYear_arith (a n400 d0 n n100 d1 n4 d2 m n1 yday year : Int)
    (hn400 : n400 = a / 146097) (hd0 : d0 = a - 146097 * n400)
    (hn : n = d0 / 36524) (hn100 : n100 = n - n / 4) (hd1 : d1 = d0 - 36524 * n100)
    (hn4 : n4 = d1 / 1461) (hd2 : d2 = d1 - 1461 * n4)
    (hm : m = d2 / 365) (hn1 : n1 = m - m / 4) (hy : yday = d2 - 365 * n1)
    (hyear : year = 400 * n400 + 100 * n100 + 4 * n4 + n1 + 1) :
    daysSinceEpoch year + yday = a ∧ 0 ≤ yday ∧
    yday < 365 + (if isLeap year then 1 else 0) := by
  have b0 : 0 ≤ d0 ∧ d0 < 146097 := by omega
  have bn : 0 ≤ n ∧ n ≤ 4 := by omega
  have bn100 : 0 ≤ n100 ∧ n100 ≤ 3 ∧ (n ≤ 3 → n100 = n) ∧ (n = 4 → n100 = 3) := by omega
  have b1 : 0 ≤ d1 ∧ d1 ≤ 36524 ∧ (n100 ≤ 2 → d1 ≤ 36523) := by omega
  have bn4 : 0 ≤ n4 ∧ n4 ≤ 24 := by omega
  have b2 : 0 ≤ d2 ∧ d2 ≤ 1460 ∧ (n4 = 24 → n100 ≤ 2 → d2 ≤ 1459) := by omega
  have bm : 0 ≤ m ∧ m ≤ 4 := by omega
  have bn1 : 0 ≤ n1 ∧ n1 ≤ 3 ∧ (m ≤ 3 → n1 = m) ∧ (m = 4 → n1 = 3) := by omega
  have by0 : 0 ≤ yday ∧ yday ≤ 365 ∧ (yday = 365 → n1 = 3 ∧ d2 = 1460) := by omega
  have e1 : (year - 1) / 400 = n400 := by omega
  have e2 : (year - 1 - 400 * n400) / 100 = n100 := by omega
  have e3 : (year - 1 - 400 * n400 - 100 * n100) / 4 = n4 := by omega
  simp only [daysSinceEpoch, isLeap, e1, e2, e3]
  refine ⟨by omega, by omega, ?_⟩
  split_ifs with h
  · omega
  · simp at h
    by_contra hc
    have h365 : yday = 365 := by omega
    have h3 := by0.2.2 h365
    have h4 : (4 : Int) ∣ year := by omega
    have h5 := h h4
    omega

theorem absYear_spec (a : Int) :
    daysSinceEpoch (absYear a).1 + (absYear a).2 = a ∧ 0 ≤ (absYear a).2 ∧
    (absYear a).2 < 365 + (if isLeap (absYear a).1 then 1 else 0) :=
  absYear_arith a _ _ _ _ _ _ _ _ _ _ _ rfl rfl rfl rfl rfl rfl rfl rfl rfl rfl rfl

theorem daysBefore_vals : daysBefore 1 = 0 ∧ daysBefore 2 = 31 ∧ daysBefore 3 = 59 ∧
    daysBefore 4 = 90 ∧ daysBefore 5 = 120 ∧ daysBefore 6 = 151 ∧ daysBefore 7 = 181 ∧
    daysBefore 8 = 212 ∧ daysBefore 9 = 243 ∧ daysBefore 10 = 273 ∧ daysBefore 11 = 304 ∧
    daysBefore 12 = 334 := by decide

theorem monthDay_arith (l yday : Int) (p : Int × Int) (hl : l = 0 ∨ l = 1) (h0 : 0 ≤ yday)
    (h1 : yday < 365 + l)
    (hp : p = (if yday < 31 then (1, yday + 1)
      else if yday < 59 + l then (2, yday - 31 + 1)
      else if yday < 90 + l then (3, yday - (59 + l) + 1)
      else if yday < 120 + l then (4, yday - (90 + l) + 1)
      else if yday < 151 + l then (5, yday - (120 + l) + 1)
      else if yday < 181 + l then (6, yday - (151 + l) + 1)
      else if yday < 212 + l then (7, yday - (181 + l) + 1)
      else if yday < 243 + l then (8, yday - (212 + l) + 1)
      else if yday < 273 + l then (9, yday - (243 + l) + 1)
      else if yday < 304 + l then (10, yday - (273 + l) + 1)
      else if yday < 334 + l then (11, yday - (304 + l) + 1)
      else (12, yday - (334 + l) + 1))) :
    1 ≤ p.1 ∧ p.1 ≤ 12 ∧ 1 ≤ p.2 ∧ p.2 ≤ 31 ∧
    daysBefore p.1 + (if p.1 ≥ 3 then l else 0) + (p.2 - 1) = yday := by
  obtain ⟨v1, v2, v3, v4, v5, v6, v7, v8, v9, v10, v11, v12⟩ := daysBefore_vals
  by_cases c0 : yday < 31
  · rw [if_pos c0] at hp; subst hp; simp only [v1, v2, v3, v4, v5, v6, v7, v8, v9, v10, v11, v12]; norm_num; omega
  rw [if_neg c0] at hp
  by_cases c1 : yday < 59 + l
  · rw [if_pos c1] at hp; subst hp; simp only [v1, v2, v3, v4, v5, v6, v7, v8, v9, v10, v11, v12]; norm_num; omega
  rw [if_neg c1] at hp
  by_cases c2 : yday < 90 + l
  · rw [if_pos c2] at hp; subst hp; simp only [v1, v2, v3, v4, v5, v6, v7, v8, v9, v10, v11, v12]; norm_num; omega
  rw [if_neg c2] at hp
  by_cases c3 : yday < 120 + l
  · rw [if_pos c3] at hp; subst hp; simp only [v1, v2, v3, v4, v5, v6, v7, v8, v9, v10, v11, v12]; norm_num; omega
  rw [if_neg c3] at hp
  by_cases c4 : yday < 151 + l
  · rw [if_pos c4] at hp; subst hp; simp only [v1, v2, v3, v4, v5, v6, v7, v8, v9, v10, v11, v12]; norm_num; omega
  rw [if_neg c4] at hp
  by_cases c5 : yday < 181 + l
  · rw [if_pos c5] at hp; subst hp; simp only [v1, v2, v3, v4, v5, v6, v7, v8, v9, v10, v11, v12]; norm_num; omega
  rw [if_neg c5] at hp
  by_cases c6 : yday < 212 + l
  · rw [if_pos c6] at hp; subst hp; simp only [v1, v2, v3, v4, v5, v6, v7, v8, v9, v10, v11, v12]; norm_num; omega
  rw [if_neg c6] at hp
  by_cases c7 : yday < 243 + l
  · rw [if_pos c7] at hp; subst hp; simp only [v1, v2, v3, v4, v5, v6, v7, v8, v9, v10, v11, v12]; norm_num; omega
  rw [if_neg c7] at hp
  by_cases c8 : yday < 273 + l
  · rw [if_pos c8] at hp; subst hp; simp only [v1, v2, v3, v4, v5, v6, v7, v8, v9, v10, v11, v12]; norm_num; omega
  rw [if_neg c8] at hp
  by_cases c9 : yday < 304 + l
  · rw [if_pos c9] at hp; subst hp; simp only [v1, v2, v3, v4, v5, v6, v7, v8, v9, v10, v11, v12]; norm_num; omega
  rw [if_neg c9] at hp
  by_cases c10 : yday < 334 + l
  · rw [if_pos c10] at hp; subst hp; simp only [v1, v2, v3, v4, v5, v6, v7, v8, v9, v10, v11, v12]; norm_num; omega
  rw [if_neg c10] at hp
  subst hp; simp only [v1, v2, v3, v4, v5, v6, v7, v8, v9, v10, v11, v12]; norm_num; omega

theorem monthDay_spec (leap : Bool) (yday : Int) (h0 : 0 ≤ yday)
    (h1 : yday < 365 + (if leap then 1 else 0)) :
    1 ≤ (monthDay leap yday).1 ∧ (monthDay leap yday).1 ≤ 12 ∧
    1 ≤ (monthDay leap yday).2 ∧ (monthDay leap yday).2 ≤ 31 ∧
    daysBefore (monthDay leap yday).1 +
      (if (monthDay leap yday).1 ≥ 3 then (if leap then 1 else 0) else 0)
      + ((monthDay leap yday).2 - 1) = yday :=
  monthDay_arith (if leap then 1 else 0) yday _ (by cases leap <;> simp) h0 h1 rfl

theorem Date_monthDay (year yday : Int) (h0 : 0 ≤ yday)
    (h1 : yday < 365 + (if isLeap year then 1 else 0)) :
    time.Date year (monthDay (isLeap year) yday).1 (monthDay (isLeap year) yday).2
      = ⟨daysSinceEpoch year + yday⟩ := by
  have h2 := monthDay_spec (isLeap year) yday h0 h1
  rcases hmd : monthDay (isLeap year) yday with ⟨month, day⟩
  rw [hmd] at h2
  simp only at h2
  obtain ⟨m1, m12, -, -, h5⟩ := h2
  have hm : (month - 1) / 12 = 0 := by omega
  have hm2 : (month - 1) % 12 + 1 = month := by omega
  simp only [time.Date, hm, hm2, add_zero]
  congr 1
  cases hl : isLeap year
  · simp only [hl, Bool.false_eq_true, if_false, Bool.false_and] at h5 ⊢
    split_ifs at h5 <;> omega
  · simp only [hl, if_true, Bool.true_and, decide_eq_true_eq] at h5 ⊢
    split_ifs at h5 ⊢ <;> omega

theorem Date_Date (t : Time) : time.Date t.Date.1 t.Date.2.1 t.Date.2.2 = t := by
  obtain ⟨a⟩ := t
  have h := absYear_spec a
  have h2 := Date_monthDay (absYear a).1 (absYear a).2 h.2.1 h.2.2
  simp only [Time.Date]
  rw [h2, h.1]

theorem Date_bounds (t : Time) :
    1 ≤ t.Date.2.1 ∧ t.Date.2.1 ≤ 12 ∧ 1 ≤ t.Date.2.2 ∧ t.Date.2.2 ≤ 31 := by
  obtain ⟨a⟩ := t
  have h := absYear_spec a
  have h2 := monthDay_spec (isLeap (absYear a).1) (absYear a).2 h.2.1 h.2.2
  exact ⟨h2.1, h2.2.1, h2.2.2.1, h2.2.2.2.1⟩

theorem Date_day_add (y m d n : Int) :
    time.Date y m (d + n) = ⟨(time.Date y m d).abs + n⟩ := by
  simp only [time.Date]
  congr 1
  omega

theorem AddDate_days (t : Time) (n : Int) : t.AddDate 0 0 n = ⟨t.abs + n⟩ := by
  simp only [Time.AddDate, add_zero]
  rw [Date_day_add, Date_Date]

end time
end Scythe

namespace Scythe
namespace time

/-! ## Formatting is injective -/

theorem charsVal_append_single (cs : List Char) (c : Char) :
    charsVal (cs ++ [c]) = 10 * charsVal cs + (c.toNat - 48) := by
  simp [charsVal, List.foldl_append]

theorem digitChar_val (n : Nat) : (digitChar n).toNat - 48 = n % 10 := by
  have h : n % 10 < 10 := Nat.mod_lt _ (by decide)
  unfold digitChar
  generalize n % 10 = k at h
  interval_cases k <;> rfl

theorem digitChar_ne_dash (n : Nat) : digitChar n ≠ '-' := by
  have h : n % 10 < 10 := Nat.mod_lt _ (by decide)
  unfold digitChar
  generalize n % 10 = k at h
  interval_cases k <;> decide

theorem charsVal_decimalFuel (fuel n : Nat) (h : n < fuel) :
    charsVal (decimalFuel fuel n) = n := by
  induction fuel generalizing n with
  | zero => omega
  | succ f ih =>
    unfold decimalFuel
    split_ifs with h10
    · have := digitChar_val n
      simp only [charsVal, List.foldl_cons, List.foldl_nil, Nat.mul_zero, Nat.zero_add]
      omega
    · rw [charsVal_append_single, ih (n / 10) (by omega), digitChar_val]; omega

theorem charsVal_decimal (n : Nat) : charsVal (decimal n) = n :=
  charsVal_decimalFuel _ _ (Nat.lt_succ_self n)

theorem decimalFuel_head (fuel n : Nat) :
    ∃ k rest, decimalFuel (fuel + 1) n = digitChar k :: rest := by
  induction fuel generalizing n with
  | zero =>
    unfold decimalFuel
    split_ifs
    · exact ⟨n, [], rfl⟩
    · exact ⟨n, [], by simp [decimalFuel]⟩
  | succ f ih =>
    unfold decimalFuel
    split_ifs
    · exact ⟨n, [], rfl⟩
    · obtain ⟨k, rest, hk⟩ := ih (n / 10)
      exact ⟨k, rest ++ [digitChar n], by rw [hk]; rfl⟩

theorem charsVal_zeros (k : Nat) (cs : List Char) :
    charsVal (List.replicate k '0' ++ cs) = charsVal cs := by
  induction k with
  | zero => simp
  | succ k ih =>
    have h0 : ('0' : Char).toNat - 48 = 0 := by decide
    simp only [charsVal, List.replicate_succ, List.cons_append, List.foldl_cons, h0] at ih ⊢
    exact ih

theorem intVal_of_head (c : Char) (cs : List Char) (h : c ≠ '-') :
    intVal (c :: cs) = (charsVal (c :: cs) : Int) := by
  unfold intVal
  split
  · rename_i heq
    simp only [List.cons.injEq] at heq
    exact absurd heq.1 h
  · rfl

theorem intVal_padded (k n : Nat) :
    intVal (List.replicate k '0' ++ decimal n) = (n : Int) := by
  have hv : charsVal (List.replicate k '0' ++ decimal n) = n := by
    rw [charsVal_zeros, charsVal_decimal]
  obtain ⟨d, rest, hd⟩ := decimalFuel_head n n
  cases k with
  | zero =>
    simp only [List.replicate_zero, List.nil_append] at hv ⊢
    unfold decimal at hv ⊢
    rw [hd] at hv ⊢
    rw [intVal_of_head _ _ (digitChar_ne_dash d), hv]
  | succ k =>
    simp only [List.replicate_succ, List.cons_append] at hv ⊢
    rw [intVal_of_head _ _ (by decide), hv]

theorem intVal_appendInt (x : Int) (width : Nat) : intVal (appendInt x width) = x := by
  unfold appendInt
  split_ifs with hx
  · simp only [List.singleton_append]
    have hv := charsVal_zeros (width - (decimal x.natAbs).length) (decimal x.natAbs)
    rw [charsVal_decimal] at hv
    simp only [intVal, hv]
    omega
  · simp only [List.nil_append]
    rw [intVal_padded]
    omega

theorem decimal_length_two (n : Nat) (h : n < 100) : (decimal n).length ≤ 2 := by
  unfold decimal
  unfold decimalFuel
  split_ifs with h10
  · simp
  · obtain ⟨m, rfl⟩ : ∃ m, n = m + 1 := ⟨n - 1, by omega⟩
    unfold decimalFuel
    have : (m + 1) / 10 < 10 := by omega
    simp [this]

theorem decimal_length_pos (n : Nat) : 1 ≤ (decimal n).length := by
  obtain ⟨d, rest, hd⟩ := decimalFuel_head n n
  unfold decimal
  rw [hd]
  simp

theorem appendInt_length_two (x : Int) (h0 : 0 ≤ x) (h : x < 100) :
    (appendInt x 2).length = 2 := by
  unfold appendInt
  have h1 := decimal_length_two x.natAbs (by omega)
  have h2 := decimal_length_pos x.natAbs
  have hx : ¬ x < 0 := by omega
  simp only [hx, if_false, List.nil_append, List.length_append, List.length_replicate]
  omega

theorem Format_ymd (t : Time) :
    t.Format "2006-01-02" =
      String.mk (appendInt t.Date.1 4 ++ ('-' :: (appendInt t.Date.2.1 2 ++
        ('-' :: (appendInt t.Date.2.2 2 ++ []))))) := rfl

theorem Format_ymd_inj (t u : Time) (h : t.Format "2006-01-02" = u.Format "2006-01-02") :
    t = u := by
  rw [Format_ymd, Format_ymd] at h
  have h := congrArg String.data h
  simp only at h
  simp only [List.append_nil] at h
  obtain ⟨tm1, tm12, td1, td31⟩ := Date_bounds t
  obtain ⟨um1, um12, ud1, ud31⟩ := Date_bounds u
  have lt1 := appendInt_length_two t.Date.2.1 (by omega) (by omega)
  have lt2 := appendInt_length_two t.Date.2.2 (by omega) (by omega)
  have lu1 := appendInt_length_two u.Date.2.1 (by omega) (by omega)
  have lu2 := appendInt_length_two u.Date.2.2 (by omega) (by omega)
  obtain ⟨hy, hrest⟩ := List.append_inj' h (by simp [lt1, lt2, lu1, lu2])
  simp only [List.cons.injEq, true_and] at hrest
  obtain ⟨hm, hrest2⟩ := List.append_inj' hrest (by simp [lt2, lu2])
  simp only [List.cons.injEq, true_and] at hrest2
  have ey : t.Date.1 = u.Date.1 := by
    rw [← intVal_appendInt t.Date.1 4, hy, intVal_appendInt]
  have em : t.Date.2.1 = u.Date.2.1 := by
    rw [← intVal_appendInt t.Date.2.1 2, hm, intVal_appendInt]
  have ed : t.Date.2.2 = u.Date.2.2 := by
    rw [← intVal_appendInt t.Date.2.2 2, hrest2, intVal_appendInt]
  rw [← Date_Date t, ← Date_Date u, ey, em, ed]

theorem Format_ymd_bne (t u : Time) :
    (t.Format "2006-01-02" != u.Format "2006-01-02") = true ↔ t.abs ≠ u.abs := by
  rw [bne_iff_ne]
  constructor
  · intro h e
    apply h
    have : t = u := by cases t; cases u; simp_all
    rw [this]
  · intro h e
    exact h (congrArg Time.abs (Format_ymd_inj t u e))

end time
end Scythe

namespace Scythe
open time (Time)

/-! ## Snapping to the week boundary -/

theorem Time.eq_of_abs {t u : Time} (h : t.abs = u.abs) : t = u := by
  cases t; cases u; simp_all

theorem findStartDate_eq (fuel : Nat) (t : Time) (h : t.abs % 7 < fuel) :
    findStartDate fuel t = .ok ⟨t.abs - t.abs % 7⟩ := by
  induction fuel generalizing t with
  | zero => omega
  | succ f ih =>
    unfold findStartDate
    by_cases hw : t.Weekday ≠ time.Monday
    · rw [if_pos hw, time.AddDate_days]
      simp only [time.Time.Weekday, time.Monday] at hw
      rw [ih ⟨t.abs + -1⟩ (by simp only; omega)]
      congr 2
      simp only
      omega
    · rw [if_neg hw]
      simp only [time.Time.Weekday, time.Monday, ne_eq, not_not] at hw
      congr 1
      apply Time.eq_of_abs
      simp only
      omega

theorem findEndDate_eq (fuel : Nat) (t : Time) (h : 6 - t.abs % 7 < fuel) :
    findEndDate fuel t = .ok ⟨t.abs + (6 - t.abs % 7)⟩ := by
  induction fuel generalizing t with
  | zero => omega
  | succ f ih =>
    unfold findEndDate
    by_cases hw : t.Weekday ≠ time.Sunday
    · rw [if_pos hw, time.AddDate_days]
      simp only [time.Time.Weekday, time.Sunday] at hw
      rw [ih ⟨t.abs + 1⟩ (by simp only; omega)]
      congr 2
      simp only
      omega
    · rw [if_neg hw]
      simp only [time.Time.Weekday, time.Sunday, ne_eq, not_not] at hw
      congr 1
      apply Time.eq_of_abs
      simp only
      omega

theorem findEndDate_error (fuel : Nat) (t : Time) (e : Err)
    (h : findEndDate fuel t = .error e) : e = .OutOfFuel := by
  induction fuel generalizing t with
  | zero =>
    simp only [findEndDate, Except.error.injEq] at h
    exact h.symm
  | succ f ih =>
    unfold findEndDate at h
    split_ifs at h
    · exact ih _ h

/-! ## The week partition -/

theorem weeksLoop_eq (n : Nat) (fuel : Nat) (d end_date : Time) (acc : List Week)
    (hn : end_date.abs = d.abs + n) (hf : n + 7 ≤ fuel) :
    weeksLoop fuel d end_date acc = .ok (acc ++ weeksFrom n d.abs) := by
  induction n generalizing fuel d acc with
  | zero =>
    obtain ⟨f, rfl⟩ : ∃ f, fuel = f + 1 := ⟨fuel - 1, by omega⟩
    have hne : ¬ ((d.Format "2006-01-02" != end_date.Format "2006-01-02") = true) := by
      rw [time.Format_ymd_bne]
      simp only [Nat.cast_zero, add_zero] at hn
      omega
    simp only [weeksLoop, hne, if_false, weeksFrom, List.append_nil, Bool.false_eq_true]
  | succ n ih =>
    obtain ⟨f, rfl⟩ : ∃ f, fuel = f + 1 := ⟨fuel - 1, by omega⟩
    have hne : (d.Format "2006-01-02" != end_date.Format "2006-01-02") = true := by
      rw [time.Format_ymd_bne]
      push_cast at hn
      omega
    have hn2 : end_date.abs = (d.AddDate 0 0 1).abs + n := by
      rw [time.AddDate_days]
      push_cast at hn
      simp only
      omega
    have hd : (d.AddDate 0 0 1).abs = d.abs + 1 := by rw [time.AddDate_days]
    unfold weeksLoop
    rw [if_pos hne]
    by_cases hw : d.Weekday = time.Monday
    · rw [if_pos hw]
      simp only [time.Time.Weekday, time.Monday] at hw
      have h7 : d.abs % 7 = 0 := by omega
      rw [findEndDate_eq f d (by omega)]
      simp only
      rw [ih f (d.AddDate 0 0 1) _ hn2 (by omega), hd]
      simp only [weeksFrom, h7, if_true, List.append_assoc, List.singleton_append, sub_zero]
    · rw [if_neg hw]
      simp only [time.Time.Weekday, time.Monday] at hw
      have h7 : ¬ d.abs % 7 = 0 := by omega
      rw [ih f (d.AddDate 0 0 1) _ hn2 (by omega), hd]
      simp only [weeksFrom, h7, if_false]

theorem weeksLoop_diverges (fuel : Nat) (d end_date : Time) (acc : List Week)
    (h : end_date.abs < d.abs) : weeksLoop fuel d end_date acc = .error .OutOfFuel := by
  induction fuel generalizing d acc with
  | zero => rfl
  | succ f ih =>
    have hne : (d.Format "2006-01-02" != end_date.Format "2006-01-02") = true := by
      rw [time.Format_ymd_bne]
      omega
    have hd : end_date.abs < (d.AddDate 0 0 1).abs := by
      rw [time.AddDate_days]
      simp only
      omega
    unfold weeksLoop
    rw [if_pos hne]
    split_ifs
    · cases hfe : findEndDate f d with
      | ok e => exact ih _ _ hd
      | error e =>
        simp only
        rw [findEndDate_error f d e hfe]
    · exact ih _ _ hd

theorem mem_weeksFrom (n : Nat) (d : Int) (w : Week) :
    w ∈ weeksFrom n d ↔
      ∃ m : Int, d ≤ m ∧ m < d + n ∧ m % 7 = 0 ∧ w = newWeek ⟨m⟩ ⟨m + 6⟩ := by
  induction n generalizing d with
  | zero =>
    simp only [weeksFrom, List.not_mem_nil, Nat.cast_zero, add_zero, false_iff]
    rintro ⟨m, h1, h2, -⟩
    omega
  | succ n ih =>
    unfold weeksFrom
    push_cast
    split_ifs with h7
    · rw [List.mem_cons, ih]
      constructor
      · rintro (rfl | ⟨m, h1, h2, h3, h4⟩)
        · exact ⟨d, le_refl _, by omega, h7, rfl⟩
        · exact ⟨m, by omega, by omega, h3, h4⟩
      · rintro ⟨m, h1, h2, h3, h4⟩
        by_cases hm : m = d
        · left; rw [h4, hm]
        · right; exact ⟨m, by omega, by omega, h3, h4⟩
    · rw [ih]
      constructor
      · rintro ⟨m, h1, h2, h3, h4⟩
        exact ⟨m, by omega, by omega, h3, h4⟩
      · rintro ⟨m, h1, h2, h3, h4⟩
        have hm : m ≠ d := by rintro rfl; exact h7 h3
        exact ⟨m, by omega, by omega, h3, h4⟩

theorem pairwise_weeksFrom (n : Nat) (d : Int) :
    (weeksFrom n d).Pairwise (fun a b => a.End.abs < b.Start.abs) := by
  induction n generalizing d with
  | zero => simp [weeksFrom]
  | succ n ih =>
    unfold weeksFrom
    split_ifs with h7
    · rw [List.pairwise_cons]
      refine ⟨?_, ih _⟩
      intro b hb
      rw [mem_weeksFrom] at hb
      obtain ⟨m, h1, -, h3, rfl⟩ := hb
      simp only [newWeek]
      omega
    · exact ih _

theorem weeksFrom_single (d : Int) (h7 : d % 7 = 0) :
    weeksFrom 6 d = [newWeek ⟨d⟩ ⟨d + 6⟩] := by
  have h1 : ¬ (d + 1) % 7 = 0 := by omega
  have h2 : ¬ (d + 1 + 1) % 7 = 0 := by omega
  have h3 : ¬ (d + 1 + 1 + 1) % 7 = 0 := by omega
  have h4 : ¬ (d + 1 + 1 + 1 + 1) % 7 = 0 := by omega
  have h5 : ¬ (d + 1 + 1 + 1 + 1 + 1) % 7 = 0 := by omega
  simp only [weeksFrom, h7, h1, h2, h3, h4, h5, if_true, if_false]

end Scythe

namespace Scythe
open time (Time)

/-! ## The dates and the week partition on calendar days -/

/-- On calendar days, where every day step lands on the adjacent day: for every day `d`,
`findStartDate d` returns (with any fuel from 7 on) the latest Monday on or before `d`: a
Monday, at most 6 days before `d`, not earlier than any Monday on or before `d`, and `d` itself
when `d` is a Monday; `findEndDate d` returns the earliest Sunday on or after `d`, likewise;
and both functions return their own result unchanged. -/
theorem calendar_snap_to_week (d : Time) (fuel : Nat) :
    ∃ s e : Time, findStartDate (fuel + 7) d = .ok s ∧ findEndDate (fuel + 7) d = .ok e ∧
      s.Weekday = time.Monday ∧ s.abs ≤ d.abs ∧ d.abs - s.abs ≤ 6 ∧
      (∀ m : Time, m.Weekday = time.Monday → m.abs ≤ d.abs → m.abs ≤ s.abs) ∧
      (d.Weekday = time.Monday → s = d) ∧
      e.Weekday = time.Sunday ∧ d.abs ≤ e.abs ∧ e.abs - d.abs ≤ 6 ∧
      (∀ m : Time, m.Weekday = time.Sunday → d.abs ≤ m.abs → e.abs ≤ m.abs) ∧
      (d.Weekday = time.Sunday → e = d) ∧
      findStartDate (fuel + 7) s = .ok s ∧ findEndDate (fuel + 7) e = .ok e := by
  refine ⟨⟨d.abs - d.abs % 7⟩, ⟨d.abs + (6 - d.abs % 7)⟩,
    findStartDate_eq _ _ (by omega), findEndDate_eq _ _ (by omega), ?_, ?_, ?_, ?_, ?_,
    ?_, ?_, ?_, ?_, ?_, ?_, ?_⟩
  · simp only [time.Time.Weekday, time.Monday]; omega
  · simp only; omega
  · simp only; omega
  · intro m hm hle
    simp only [time.Time.Weekday, time.Monday] at hm ⊢
    omega
  · intro hd
    simp only [time.Time.Weekday, time.Monday] at hd
    apply Time.eq_of_abs
    simp only
    omega
  · simp only [time.Time.Weekday, time.Sunday]; omega
  · simp only; omega
  · simp only; omega
  · intro m hm hle
    simp only [time.Time.Weekday, time.Sunday] at hm ⊢
    omega
  · intro hd
    simp only [time.Time.Weekday, time.Sunday] at hd
    apply Time.eq_of_abs
    simp only
    omega
  · rw [findStartDate_eq _ _ (by simp only; omega)]
    congr 1
    apply Time.eq_of_abs
    simp only
    omega
  · rw [findEndDate_eq _ _ (by simp only; omega)]
    congr 1
    apply Time.eq_of_abs
    simp only
    omega

/-- On calendar days, where every day step lands on the adjacent day: for every start day
and every end day on or after it, the week partition loop returns (with any fuel from the
number of days in the range plus 7 on) a list of weeks such that every week starts on a Monday
`m` with `start <= m < end`, ends on `findEndDate m`, which is `m + 6` days, and carries
nothing else; every Monday of the range starts a week of the list; each week ends before the
next one starts; for a Monday start and `end = start + 6` the list is the single week from
start to end; and for `start = end` the list is empty. -/
theorem calendar_partition (start_date end_date : Time) (h : start_date.abs ≤ end_date.abs)
    (fuel : Nat) :
    ∃ ws : List Week,
      partitionWeeks (fuel + (end_date.abs - start_date.abs).toNat + 7) start_date end_date
        = .ok ws ∧
      (∀ w ∈ ws, w.Start.Weekday = time.Monday ∧ start_date.abs ≤ w.Start.abs ∧
        w.Start.abs < end_date.abs ∧ findEndDate (fuel + 7) w.Start = .ok w.End ∧
        w.End.abs = w.Start.abs + 6 ∧ w = newWeek w.Start w.End) ∧
      (∀ m : Time, m.Weekday = time.Monday → start_date.abs ≤ m.abs → m.abs < end_date.abs →
        ∃ w ∈ ws, w.Start = m) ∧
      ws.Pairwise (fun a b => a.End.abs < b.Start.abs) ∧
      (start_date.Weekday = time.Monday → end_date.abs = start_date.abs + 6 →
        ws = [newWeek start_date end_date]) ∧
      (start_date.abs = end_date.abs → ws = []) := by
  refine ⟨weeksFrom (end_date.abs - start_date.abs).toNat start_date.abs, ?_, ?_, ?_,
    pairwise_weeksFrom _ _, ?_, ?_⟩
  · unfold partitionWeeks
    rw [weeksLoop_eq (end_date.abs - start_date.abs).toNat _ _ _ _ (by omega) (by omega)]
    rfl
  · intro w hw
    rw [mem_weeksFrom] at hw
    obtain ⟨m, h1, h2, h3, rfl⟩ := hw
    simp only [newWeek, time.Time.Weekday, time.Monday]
    refine ⟨by omega, h1, by omega, ?_, trivial, trivial⟩
    rw [findEndDate_eq _ _ (by simp only; omega)]
    congr 1
    apply Time.eq_of_abs
    simp only
    omega
  · intro m hm h1 h2
    simp only [time.Time.Weekday, time.Monday] at hm
    refine ⟨newWeek ⟨m.abs⟩ ⟨m.abs + 6⟩, ?_, rfl⟩
    rw [mem_weeksFrom]
    exact ⟨m.abs, h1, by omega, by omega, rfl⟩
  · intro hm he
    simp only [time.Time.Weekday, time.Monday] at hm
    have hn : (end_date.abs - start_date.abs).toNat = 6 := by omega
    rw [hn, weeksFrom_single _ (by omega)]
    congr 2
    apply Time.eq_of_abs
    simp only
    omega
  · intro he
    have hn : (end_date.abs - start_date.abs).toNat = 0 := by omega
    rw [hn]
    rfl

/-- The calendar partition of the range from Monday 2024-03-04 to Sunday 2024-03-17. -/
theorem calendar_partition_example :
    (time.Date 2024 3 4).abs ≤ (time.Date 2024 3 17).abs ∧
    ∃ ws : List Week,
      partitionWeeks (0 + ((time.Date 2024 3 17).abs - (time.Date 2024 3 4).abs).toNat + 7)
        (time.Date 2024 3 4) (time.Date 2024 3 17) = .ok ws ∧
      (∀ w ∈ ws, w.Start.Weekday = time.Monday ∧ (time.Date 2024 3 4).abs ≤ w.Start.abs ∧
        w.Start.abs < (time.Date 2024 3 17).abs ∧ findEndDate (0 + 7) w.Start = .ok w.End ∧
        w.End.abs = w.Start.abs + 6 ∧ w = newWeek w.Start w.End) ∧
      (∀ m : Time, m.Weekday = time.Monday → (time.Date 2024 3 4).abs ≤ m.abs →
        m.abs < (time.Date 2024 3 17).abs → ∃ w ∈ ws, w.Start = m) ∧
      ws.Pairwise (fun a b => a.End.abs < b.Start.abs) ∧
      ((time.Date 2024 3 4).Weekday = time.Monday →
        (time.Date 2024 3 17).abs = (time.Date 2024 3 4).abs + 6 →
        ws = [newWeek (time.Date 2024 3 4) (time.Date 2024 3 17)]) ∧
      ((time.Date 2024 3 4).abs = (time.Date 2024 3 17).abs → ws = []) :=
  ⟨by decide, calendar_partition (time.Date 2024 3 4) (time.Date 2024 3 17) (by decide) 0⟩

/-- C3: when the start date is strictly after the end date, the week partition loop never
reaches its exit test: whatever the fuel, it is still running when the fuel is used up, so it
returns no week sequence at all (in particular not the empty one). -/
theorem C3_start_after_end_diverges (start_date end_date : Time)
    (h : end_date.abs < start_date.abs) :
    ¬ ∃ fuel ws, partitionWeeks fuel start_date end_date = .ok ws := by
  rintro ⟨fuel, ws, hws⟩
  unfold partitionWeeks at hws
  rw [weeksLoop_diverges fuel _ _ _ h] at hws
  cases hws

/-- C3 at start = Monday 2024-03-11 and end = Sunday 2024-03-10. -/
theorem C3_start_after_end_witness :
    (time.Date 2024 3 10).abs < (time.Date 2024 3 11).abs ∧
    ¬ ∃ fuel ws, partitionWeeks fuel (time.Date 2024 3 11) (time.Date 2024 3 10) = .ok ws :=
  ⟨by decide, C3_start_after_end_diverges (time.Date 2024 3 11) (time.Date 2024 3 10)
    (by decide)⟩

/-- On calendar days, where every day step lands on the adjacent day: for every day `now`,
when both inputs are empty the start date is the latest Monday on or before `now` and the end
date is the first Sunday on or after `now`; the end is the start plus 6 days, the partition of
this range is exactly one week, from the start to the end, and `now` lies within it. -/
theorem calendar_default_range (now : Time) (fuel : Nat) :
    ∃ s e : Time, resolveStartDate (fuel + 13) now "" = .ok s ∧
      resolveEndDate (fuel + 13) now "" = .ok e ∧
      s.Weekday = time.Monday ∧ s.abs ≤ now.abs ∧ now.abs - s.abs ≤ 6 ∧
      e.Weekday = time.Sunday ∧ now.abs ≤ e.abs ∧
      (∀ m : Time, m.Weekday = time.Sunday → now.abs ≤ m.abs → e.abs ≤ m.abs) ∧
      e.abs = s.abs + 6 ∧
      partitionWeeks (fuel + 13) s e = .ok [newWeek s e] ∧
      (newWeek s e).Start.abs ≤ now.abs ∧ now.abs ≤ (newWeek s e).End.abs := by
  have hs : resolveStartDate (fuel + 13) now "" = .ok ⟨now.abs - now.abs % 7⟩ := by
    have h0 : ("" : String).utf8ByteSize = 0 := rfl
    simp only [resolveStartDate, h0, ne_eq, not_true_eq_false, if_false]
    rw [findStartDate_eq _ _ (by omega)]
    rfl
  have he : resolveEndDate (fuel + 13) now "" = .ok ⟨now.abs + (6 - now.abs % 7)⟩ := by
    have h0 : ("" : String).utf8ByteSize = 0 := rfl
    simp only [resolveEndDate, h0, ne_eq, not_true_eq_false, if_false]
    rw [findEndDate_eq _ _ (by omega)]
    rfl
  refine ⟨_, _, hs, he, ?_, ?_, ?_, ?_, ?_, ?_, ?_, ?_, ?_, ?_⟩
  · simp only [time.Time.Weekday, time.Monday]; omega
  · simp only; omega
  · simp only; omega
  · simp only [time.Time.Weekday, time.Sunday]; omega
  · simp only; omega
  · intro m hm hle
    simp only [time.Time.Weekday, time.Sunday] at hm ⊢
    omega
  · simp only; omega
  · unfold partitionWeeks
    rw [weeksLoop_eq 6 _ _ _ _ (by simp only; push_cast; omega) (by omega)]
    simp only [List.nil_append]
    rw [weeksFrom_single _ (by omega)]
    have h6 : now.abs - now.abs % 7 + 6 = now.abs + (6 - now.abs % 7) := by omega
    rw [h6]
  · simp only [newWeek]; omega
  · simp only [newWeek]; omega

end Scythe

namespace Scythe
open time (Time)

/-- C8: the shorthand day is joined to the year and month of the default date (the Monday of
the current week for the start, the Sunday ending it for the end), not to those of today.
With today = Friday 2024-03-01 the default start is Monday 2024-02-26, so the start input
"15" is read as 2024-02-15 and snapped to Monday 2024-02-12, where 2024-03-15 would snap to
2024-03-11; with today = Tuesday 2024-02-27 the default end is Sunday 2024-03-03, so the end
input "15" is read as 2024-03-15 and snapped to Sunday 2024-03-17, where 2024-02-15 would
snap to 2024-02-18.  With today = 2024-03-07 the input "15" is read as 2024-03-15, while the
one-character input "5" does not parse against the two-digit day of the layout and is fatal. -/
theorem C8_shorthand_uses_default_month :
    findStartDate 7 (time.Date 2024 3 1) = .ok (time.Date 2024 2 26) ∧
    time.ParseInLocation "2006-01-02"
      ((time.Date 2024 2 26).Format "2006-01" ++ "-" ++ "15") = some (time.Date 2024 2 15) ∧
    resolveStartDate 7 (time.Date 2024 3 1) "15" = .ok (time.Date 2024 2 12) ∧
    findStartDate 7 (time.Date 2024 3 15) = .ok (time.Date 2024 3 11) ∧
    findEndDate 7 (time.Date 2024 2 27) = .ok (time.Date 2024 3 3) ∧
    time.ParseInLocation "2006-01-02"
      ((time.Date 2024 3 3).Format "2006-01" ++ "-" ++ "15") = some (time.Date 2024 3 15) ∧
    resolveEndDate 7 (time.Date 2024 2 27) "15" = .ok (time.Date 2024 3 17) ∧
    findEndDate 7 (time.Date 2024 2 15) = .ok (time.Date 2024 2 18) ∧
    findStartDate 7 (time.Date 2024 3 7) = .ok (time.Date 2024 3 4) ∧
    time.ParseInLocation "2006-01-02"
      ((time.Date 2024 3 4).Format "2006-01" ++ "-" ++ "15") = some (time.Date 2024 3 15) ∧
    resolveStartDate 7 (time.Date 2024 3 7) "15" = findStartDate 7 (time.Date 2024 3 15) ∧
    resolveStartDate 7 (time.Date 2024 3 7) "5" = .error .Fatal := by
  refine ⟨?_, ?_, ?_, ?_, ?_, ?_, ?_, ?_, ?_, ?_, ?_, ?_⟩
  · decide!
  · decide!
  · decide!
  · decide!
  · decide!
  · decide!
  · decide!
  · decide!
  · decide!
  · decide!
  · decide!
  · decide!

end Scythe

namespace Scythe

/-! ## float64 addition is exact on a common grid -/

namespace Float64

theorem bitLenFuel_le (fuel n b : Nat) (h : n < 2 ^ b) : bitLenFuel fuel n ≤ b := by
  induction fuel generalizing n b with
  | zero => simp [bitLenFuel]
  | succ f ih =>
    unfold bitLenFuel
    split_ifs with h0
    · omega
    · cases b with
      | zero => simp at h; omega
      | succ b =>
        have h2 : n / 2 < 2 ^ b := by
          rw [Nat.div_lt_iff_lt_mul (by decide)]
          rw [pow_succ] at h
          exact h
        have := ih (n / 2) b h2
        omega

set_option exponentiation.threshold 4096 in
theorem round_exact (s : Bool) (n j : Nat) (hn : n < 2 ^ 53) (hj : j ≤ 2045) :
    round s (n * 2 ^ j) = fin s (n * 2 ^ j) := by
  have hlt : n * 2 ^ j < 2 ^ (53 + j) := by
    rw [pow_add]
    exact Nat.mul_lt_mul_of_pos_right hn (Nat.two_pow_pos _)
  have hk : bitLen (n * 2 ^ j) - 53 ≤ j := by
    have := bitLenFuel_le (n * 2 ^ j) (n * 2 ^ j) (53 + j) hlt
    unfold bitLen
    omega
  unfold round roundAt
  simp only [Nat.max_zero, Nat.sub_zero]
  generalize bitLen (n * 2 ^ j) - 53 = k at hk
  have hdvd : 2 ^ k ∣ n * 2 ^ j := Dvd.dvd.mul_left (pow_dvd_pow 2 hk) n
  have hpos : 0 < 2 ^ k := Nat.two_pow_pos _
  have hr : n * 2 ^ j % 2 ^ k = 0 := Nat.mod_eq_zero_of_dvd hdvd
  have hq : n * 2 ^ j / 2 ^ k * 2 ^ k = n * 2 ^ j := Nat.div_mul_cancel hdvd
  have hc : ¬ (2 ^ k < 2 * 0 ∨ 2 * 0 = 2 ^ k ∧ n * 2 ^ j / 2 ^ k % 2 = 1) := by
    rintro (h | ⟨h, -⟩) <;> omega
  have hbig : ¬ 2 ^ 2098 ≤ n * 2 ^ j := by
    have h2 : (2 : Nat) ^ (53 + j) ≤ 2 ^ 2098 := Nat.pow_le_pow_right (by decide) (by omega)
    exact Nat.not_le.mpr (lt_of_lt_of_le hlt h2)
  simp only [hr, hc, if_false, hq, hbig]

theorem add_exact (a b j : Nat) (h : a + b < 2 ^ 53) (hj : j ≤ 2045) :
    fin false (a * 2 ^ j) + fin false (b * 2 ^ j) = fin false ((a + b) * 2 ^ j) := by
  show add (fin false (a * 2 ^ j)) (fin false (b * 2 ^ j)) = _
  simp only [add, if_true]
  rw [← Nat.add_mul, round_exact false (a + b) j h hj]

end Float64

theorem foldl_exact (j : Nat) (hj : j ≤ 2045) (es : HarvestReport) (acc : Nat)
    (hes : ∀ e ∈ es,
      e.DayEntry.Hours = Float64.fin false (Float64.units j e.DayEntry.Hours * 2 ^ j))
    (hsum : acc + (es.map (fun e => Float64.units j e.DayEntry.Hours)).sum < 2 ^ 53) :
    (es.map (fun e => e.DayEntry.Hours)).foldl (fun acc h => acc + h)
        (Float64.fin false (acc * 2 ^ j)) =
      Float64.fin false
        ((acc + (es.map (fun e => Float64.units j e.DayEntry.Hours)).sum) * 2 ^ j) := by
  induction es generalizing acc with
  | nil => simp
  | cons e es ih =>
    simp only [List.map_cons, List.sum_cons, List.foldl_cons] at hsum ⊢
    have he := hes e (List.mem_cons_self _ _)
    have ih2 := ih (acc + Float64.units j e.DayEntry.Hours)
      (fun x hx => hes x (List.mem_cons_of_mem _ hx)) (by omega)
    generalize Float64.units j e.DayEntry.Hours = u at he hsum ih2 ⊢
    rw [he, Float64.add_exact _ _ j (by omega) hj, ih2, Nat.add_assoc]

theorem sumHours_exact (j : Nat) (hj : j ≤ 2045) (es : HarvestReport) (h : ExactHours j es) :
    sumHours es =
      Float64.fin false ((es.map (fun e => Float64.units j e.DayEntry.Hours)).sum * 2 ^ j) := by
  have := foldl_exact j hj es 0 h.1 (by simpa using h.2)
  simpa [sumHours, Float64.zero] using this

theorem ExactHours_perm (j : Nat) (es es2 : HarvestReport) (hp : es.Perm es2)
    (h : ExactHours j es) : ExactHours j es2 := by
  refine ⟨fun e he => h.1 e (hp.mem_iff.mpr he), ?_⟩
  rw [← (hp.map _).sum_eq]
  exact h.2

theorem calculateHours_billable (w : Week) :
    (calculateHours w).BillableHours = sumHours w.BillableEntries := by
  simp only [calculateHours, sumHours, List.foldl_map]

theorem calculateHours_nonBillable (w : Week) :
    (calculateHours w).NonBillableHours = sumHours w.NonBillableEntries := by
  simp only [calculateHours, sumHours, List.foldl_map]

end Scythe

namespace Scythe

/-! ## One iteration of the loop over the weeks -/

theorem index_last {α : Type} (xs : List α) (x : α) (h : xs.getLast? = some x) :
    index xs ((xs.length : Int) - 1) = .ok x := by
  have hne : xs ≠ [] := by
    rintro rfl
    simp at h
  have hlen : 0 < xs.length := List.length_pos.mpr hne
  have h0 : ¬ ((xs.length : Int) - 1 < 0) := by omega
  have h1 : ((xs.length : Int) - 1).toNat = xs.length - 1 := by omega
  unfold index
  rw [if_neg h0, h1, List.get?_eq_getElem?, ← List.getLast?_eq_getElem?, h]

theorem index_nil {α : Type} : index ([] : List α) (((([] : List α).length : Nat) : Int) - 1)
    = .error .Panic := rfl

theorem index_short {α : Type} (xs : List α) (i : Nat) (h : xs.length ≤ i) :
    index xs (i : Int) = .error .Panic := by
  have h0 : ¬ ((i : Int) < 0) := by omega
  unfold index
  rw [if_neg h0, Int.toNat_ofNat, List.get?_eq_none.mpr h]

theorem index_get {α : Type} (xs : List α) (i : Nat) (x : α) (h : xs.get? i = some x) :
    index xs (i : Int) = .ok x := by
  have h0 : ¬ ((i : Int) < 0) := by omega
  unfold index
  rw [if_neg h0, Int.toNat_ofNat, h]

theorem readPrevious_ok (lib : Strconv) (sheet : Sheet) (row : List Cell) (cell : Cell)
    (hrow : sheet.Rows.getLast? = some row) (hcell : row.get? 7 = some cell) :
    readPrevious lib sheet =
      .ok (sheet.lastRow, (lib.ParseFloat cell.Value).getD Float64.zero) := by
  have h1 := index_last sheet.Rows row hrow
  have h2 := index_get row 7 cell hcell
  simp only [Nat.cast_ofNat] at h2
  unfold readPrevious
  simp only [h1, h2, bind, Except.bind, Sheet.lastRow]
  cases lib.ParseFloat cell.Value <;> rfl

theorem readPrevious_panic (lib : Strconv) (sheet : Sheet)
    (h : sheet.Rows = [] ∨ ∃ row, sheet.Rows.getLast? = some row ∧ row.length < 8) :
    readPrevious lib sheet = .error .Panic := by
  rcases h with h | ⟨row, hrow, hlen⟩
  · unfold readPrevious
    rw [h]
    rfl
  · have h1 := index_last sheet.Rows row hrow
    have h2 := index_short row 7 (by omega)
    simp only [Nat.cast_ofNat] at h2
    unfold readPrevious
    simp only [h1, h2, bind, Except.bind]

theorem processWeek_ok (lib : Strconv) (config : Config) (sheet : Sheet) (week : Week)
    (pto : Float64) (billable nonBillable : HarvestReport) (lastRow : Int) (p : Float64)
    (h : readPrevious lib sheet = .ok (lastRow, p)) :
    processWeek lib config sheet week pto billable nonBillable =
      .ok
        { week := calculateHours { week with
            Pto := pto, BillableEntries := billable, NonBillableEntries := nonBillable }
          lastRow := (billable.foldl
            (entryUpdates lib config (calculateHours { week with
              Pto := pto, BillableEntries := billable, NonBillableEntries := nonBillable }))
            (lastRow, [])).1
          previousOverUnder := p
          updates := (billable.foldl
            (entryUpdates lib config (calculateHours { week with
              Pto := pto, BillableEntries := billable, NonBillableEntries := nonBillable }))
            (lastRow, [])).2 ++
            [⟨(billable.foldl
                (entryUpdates lib config (calculateHours { week with
                  Pto := pto, BillableEntries := billable, NonBillableEntries := nonBillable }))
                (lastRow, [])).1, 7,
              lib.FormatFloat ((sumHours billable + sumHours nonBillable + pto + p)
                - Float64.quota)⟩,
             ⟨(billable.foldl
                (entryUpdates lib config (calculateHours { week with
                  Pto := pto, BillableEntries := billable, NonBillableEntries := nonBillable }))
                (lastRow, [])).1, 8, lib.FormatFloat pto⟩,
             ⟨(billable.foldl
                (entryUpdates lib config (calculateHours { week with
                  Pto := pto, BillableEntries := billable, NonBillableEntries := nonBillable }))
                (lastRow, [])).1, 9, lib.FormatFloat (sumHours nonBillable)⟩]
          total := sumHours billable + sumHours nonBillable + pto
          overUnder := (sumHours billable + sumHours nonBillable + pto + p) - Float64.quota } := by
  unfold processWeek
  simp only [h, bind, Except.bind, pure, Except.pure]
  have hb := calculateHours_billable { week with
    Pto := pto, BillableEntries := billable, NonBillableEntries := nonBillable }
  have hn := calculateHours_nonBillable { week with
    Pto := pto, BillableEntries := billable, NonBillableEntries := nonBillable }
  simp only at hb hn
  have hp : (calculateHours { week with
    Pto := pto, BillableEntries := billable, NonBillableEntries := nonBillable }).Pto = pto := rfl
  have he : (calculateHours { week with
    Pto := pto, BillableEntries := billable, NonBillableEntries := nonBillable }).BillableEntries
      = billable := rfl
  rw [he, hb, hn, hp]

theorem foldl_entryUpdates (lib : Strconv) (config : Config) (w : Week) (es : HarvestReport)
    (r0 : Int) (ups0 : List CellUpdate) :
    (es.foldl (entryUpdates lib config w) (r0, ups0)).1 = r0 + es.length ∧
    ∀ u ∈ (es.foldl (entryUpdates lib config w) (r0, ups0)).2,
      u ∈ ups0 ∨ (r0 < u.row ∧ u.row ≤ r0 + es.length ∧ 0 ≤ u.column ∧ u.column ≤ 4) := by
  induction es generalizing r0 ups0 with
  | nil =>
    simp only [List.foldl_nil, List.length_nil, Nat.cast_zero, add_zero, true_and]
    exact fun u hu => Or.inl hu
  | cons e es ih =>
    simp only [List.foldl_cons, List.length_cons, Nat.cast_add, Nat.cast_one]
    obtain ⟨h1, h2⟩ := ih (entryUpdates lib config w (r0, ups0) e).1
      (entryUpdates lib config w (r0, ups0) e).2
    refine ⟨by rw [h1]; simp only [entryUpdates]; omega, ?_⟩
    intro u hu
    rcases h2 u hu with h | ⟨ha, hb, hc, hd⟩
    · simp only [entryUpdates, List.mem_append, List.mem_cons, List.mem_singleton,
        List.not_mem_nil, or_false] at h
      rcases h with h | rfl | rfl | rfl | rfl | rfl
      · exact Or.inl h
      all_goals right; simp only; omega
    · right
      simp only [entryUpdates] at ha hb
      omega

end Scythe

namespace Scythe

/-! ## Claims about the hours, the balance and the ledger -/

set_option maxRecDepth 100000 in
theorem balance_examples :
    sumHours [entryOfHours (Float64.ofRatio false 10 1)] = Float64.ofRatio false 10 1 ∧
    sumHours [entryOfHours (Float64.ofRatio false 5 1)] = Float64.ofRatio false 5 1 ∧
    Float64.ofRatio false 10 1 + Float64.ofRatio false 5 1 + Float64.ofRatio false 2 1
      = Float64.ofRatio false 17 1 ∧
    (Float64.ofRatio false 17 1 + Float64.zero) - Float64.quota = Float64.ofRatio true 41 2 ∧
    sumHours [entryOfHours (Float64.ofRatio false 25 1)] = Float64.ofRatio false 25 1 ∧
    sumHours [] = Float64.zero ∧
    Float64.ofRatio false 25 1 + Float64.zero + Float64.zero = Float64.ofRatio false 25 1 ∧
    (Float64.ofRatio false 25 1 + Float64.ofRatio false 41 2) - Float64.quota
      = Float64.ofRatio false 8 1 ∧
    Float64.quota = Float64.fin false (75 * 2 ^ 1073) := by
  refine ⟨?_, ?_, ?_, ?_, ?_, ?_, ?_, ?_, ?_⟩
  · decide!
  · decide!
  · decide!
  · decide!
  · decide!
  · decide!
  · decide!
  · decide!
  · decide!

/-- C4: for every previous balance `p` read from the ledger, every paid time off `t` and all
billable and non-billable entries fetched for a week, the iteration returns the week with the
entries and `t` stored, its billable hours `b` the sum of the hours of the billable entries
and its non-billable hours `n` the sum of the hours of the non-billable entries, the total
`b + n + t` and the over/under `(b + n + t + p) - 37.5`, in float64 arithmetic; the quota is
exactly 37.5.  With an empty previous cell (`p = 0`), one billable entry of 10 hours, one
non-billable entry of 5 hours and `t = 2` the total is 17 and the over/under -20.5; with the
previous cell "20.50" parsed as 20.5, one billable entry of 25 hours, no non-billable entry
and `t = 0` the total is 25 and the over/under 8. -/
theorem C4_total_and_overUnder (lib : Strconv) (config : Config) (sheet : Sheet) (week : Week)
    (pto : Float64) (billable nonBillable : HarvestReport) (lastRow : Int) (p : Float64)
    (h : readPrevious lib sheet = .ok (lastRow, p)) :
    (∃ r : WeekResult, processWeek lib config sheet week pto billable nonBillable = .ok r ∧
      r.previousOverUnder = p ∧ r.week.Pto = pto ∧
      r.week.BillableEntries = billable ∧ r.week.NonBillableEntries = nonBillable ∧
      r.week.BillableHours = sumHours billable ∧
      r.week.NonBillableHours = sumHours nonBillable ∧
      r.total = sumHours billable + sumHours nonBillable + pto ∧
      r.overUnder = (sumHours billable + sumHours nonBillable + pto + p) - Float64.quota) ∧
    Float64.quota = Float64.fin false (75 * 2 ^ 1073) ∧
    (∃ r : WeekResult,
      processWeek ⟨fun _ => none, fun _ => ""⟩ config ⟨[List.replicate 10 (cellOf "")]⟩ week
        (Float64.ofRatio false 2 1) [entryOfHours (Float64.ofRatio false 10 1)]
        [entryOfHours (Float64.ofRatio false 5 1)] = .ok r ∧
      r.previousOverUnder = Float64.zero ∧
      r.week.BillableHours = Float64.ofRatio false 10 1 ∧
      r.week.NonBillableHours = Float64.ofRatio false 5 1 ∧
      r.week.Pto = Float64.ofRatio false 2 1 ∧
      r.total = Float64.ofRatio false 17 1 ∧ r.overUnder = Float64.ofRatio true 41 2) ∧
    (∃ r : WeekResult,
      processWeek
        ⟨fun s => if s = "20.50" then some (Float64.ofRatio false 41 2) else none, fun _ => ""⟩
        config ⟨[List.replicate 10 (cellOf "20.50")]⟩ week
        Float64.zero [entryOfHours (Float64.ofRatio false 25 1)] [] = .ok r ∧
      r.previousOverUnder = Float64.ofRatio false 41 2 ∧
      r.week.BillableHours = Float64.ofRatio false 25 1 ∧
      r.week.NonBillableHours = Float64.zero ∧
      r.week.Pto = Float64.zero ∧
      r.total = Float64.ofRatio false 25 1 ∧ r.overUnder = Float64.ofRatio false 8 1) := by
  obtain ⟨e10, e5, e17, eo1, e25, e0, et2, eo2, eq⟩ := balance_examples
  have key : ∀ (lib : Strconv) (sheet : Sheet) (pto : Float64)
      (billable nonBillable : HarvestReport) (lastRow : Int) (p : Float64),
      readPrevious lib sheet = .ok (lastRow, p) →
      ∃ r : WeekResult, processWeek lib config sheet week pto billable nonBillable = .ok r ∧
        r.previousOverUnder = p ∧ r.week.Pto = pto ∧
        r.week.BillableEntries = billable ∧ r.week.NonBillableEntries = nonBillable ∧
        r.week.BillableHours = sumHours billable ∧
        r.week.NonBillableHours = sumHours nonBillable ∧
        r.total = sumHours billable + sumHours nonBillable + pto ∧
        r.overUnder = (sumHours billable + sumHours nonBillable + pto + p) - Float64.quota :=
    fun lib sheet pto billable nonBillable lastRow p h =>
      ⟨_, processWeek_ok lib config sheet week pto billable nonBillable lastRow p h,
        rfl, rfl, rfl, rfl, calculateHours_billable _, calculateHours_nonBillable _, rfl, rfl⟩
  refine ⟨key lib sheet pto billable nonBillable lastRow p h, eq, ?_, ?_⟩
  · obtain ⟨r, h1, hp, ht, -, -, hb, hn, htot, hou⟩ :=
      key ⟨fun _ => none, fun _ => ""⟩ ⟨[List.replicate 10 (cellOf "")]⟩
        (Float64.ofRatio false 2 1) [entryOfHours (Float64.ofRatio false 10 1)]
        [entryOfHours (Float64.ofRatio false 5 1)] 0 Float64.zero (by decide)
    refine ⟨r, h1, hp, hb.trans e10, hn.trans e5, ht, ?_, ?_⟩
    · rw [htot, e10, e5, e17]
    · rw [hou, e10, e5, e17, eo1]
  · obtain ⟨r, h1, hp, ht, -, -, hb, hn, htot, hou⟩ :=
      key ⟨fun s => if s = "20.50" then some (Float64.ofRatio false 41 2) else none,
          fun _ => ""⟩ ⟨[List.replicate 10 (cellOf "20.50")]⟩
        Float64.zero [entryOfHours (Float64.ofRatio false 25 1)] [] 0
        (Float64.ofRatio false 41 2) (by decide!)
    refine ⟨r, h1, hp, hb.trans e25, hn.trans e0, ht, ?_, ?_⟩
    · rw [htot, e25, e0, et2]
    · rw [hou, e25, e0, et2, eo2]

/-- C4 at a ledger whose last row holds an empty cell in column 7 (previous balance 0), with
one billable entry of 10 hours, one non-billable entry of 5 hours and 2 hours paid time off:
the total is 17 and the over/under -20.5. -/
theorem C4_total_and_overUnder_witness :
    readPrevious ⟨fun _ => none, fun _ => ""⟩ ⟨[List.replicate 10 (cellOf "")]⟩
      = .ok (0, Float64.zero) ∧
    ∃ r : WeekResult,
      processWeek ⟨fun _ => none, fun _ => ""⟩ ⟨"", "", "", "", "", "", ""⟩
        ⟨[List.replicate 10 (cellOf "")]⟩ (newWeek (time.Date 2024 3 4) (time.Date 2024 3 10))
        (Float64.ofRatio false 2 1) [entryOfHours (Float64.ofRatio false 10 1)]
        [entryOfHours (Float64.ofRatio false 5 1)] = .ok r ∧
      r.week.BillableHours = Float64.ofRatio false 10 1 ∧
      r.week.NonBillableHours = Float64.ofRatio false 5 1 ∧
      r.week.Pto = Float64.ofRatio false 2 1 ∧
      r.previousOverUnder = Float64.zero ∧
      r.total = Float64.ofRatio false 17 1 ∧
      r.overUnder = Float64.ofRatio true 41 2 := by
  refine ⟨by decide, ?_⟩
  obtain ⟨e10, e5, e17, eo1, -⟩ := balance_examples
  obtain ⟨⟨r, h1, hp, ht, -, -, hb, hn, htot, hou⟩, -⟩ :=
    C4_total_and_overUnder ⟨fun _ => none, fun _ => ""⟩ ⟨"", "", "", "", "", "", ""⟩
      ⟨[List.replicate 10 (cellOf "")]⟩ (newWeek (time.Date 2024 3 4) (time.Date 2024 3 10))
      (Float64.ofRatio false 2 1) [entryOfHours (Float64.ofRatio false 10 1)]
      [entryOfHours (Float64.ofRatio false 5 1)] 0 Float64.zero (by decide)
  refine ⟨r, h1, hb.trans e10, hn.trans e5, ht, hp, ?_, ?_⟩
  · rw [htot, e10, e5, e17]
  · rw [hou, e10, e5, e17, eo1]

set_option maxRecDepth 100000 in
/-- C5, as stated, fails: the entries of 0.1, 0.2 and 0.3 hours sum to 0.6000000000000001 in
this order and to 0.6 in the reverse order, so a permutation changes `BillableHours`. -/
theorem C5_order_changes_sum :
    [entryOfHours (Float64.ofRatio false 1 10), entryOfHours (Float64.ofRatio false 2 10),
      entryOfHours (Float64.ofRatio false 3 10)].Perm
      [entryOfHours (Float64.ofRatio false 3 10), entryOfHours (Float64.ofRatio false 2 10),
        entryOfHours (Float64.ofRatio false 1 10)] ∧
    (calculateHours { newWeek (time.Date 2024 3 4) (time.Date 2024 3 10) with
      BillableEntries := [entryOfHours (Float64.ofRatio false 1 10),
        entryOfHours (Float64.ofRatio false 2 10),
        entryOfHours (Float64.ofRatio false 3 10)] }).BillableHours
      = Float64.fin false (0x13333333333334 * 2 ^ 1021) ∧
    (calculateHours { newWeek (time.Date 2024 3 4) (time.Date 2024 3 10) with
      BillableEntries := [entryOfHours (Float64.ofRatio false 3 10),
        entryOfHours (Float64.ofRatio false 2 10),
        entryOfHours (Float64.ofRatio false 1 10)] }).BillableHours
      = Float64.fin false (0x13333333333333 * 2 ^ 1021) ∧
    Float64.fin false (0x13333333333334 * 2 ^ 1021)
      ≠ Float64.fin false (0x13333333333333 * 2 ^ 1021) := by
  refine ⟨?_, ?_, ?_, ?_⟩
  · exact (List.reverse_perm _).symm
  · decide!
  · decide!
  · decide!

/-- C5, amended: for every week `w`, `calculateHours w` sets `BillableHours` to the sum of the
hours of `BillableEntries` and `NonBillableHours` to the sum of the hours of
`NonBillableEntries`, accumulated from 0 in sequence order in float64 arithmetic; each depends
only on its own entry sequence, prior values of the two fields are overwritten and the other
fields are kept; an empty sequence sums to 0; and permuting a sequence does not change its sum
when the additions are exact: when every entry is a non-negative multiple of one power of two
(`2^j` units of `2^-1074`, such as a quarter of an hour) and the multiples total less than
`2^53`. -/
theorem C5_calculateHours_sums (w : Week) (j : Nat) (es es2 : HarvestReport) (hj : j ≤ 2045)
    (hex : ExactHours j es) (hperm : es.Perm es2) :
    (calculateHours w).BillableHours = sumHours w.BillableEntries ∧
    (calculateHours w).NonBillableHours = sumHours w.NonBillableEntries ∧
    (∀ b n : Float64,
      calculateHours { w with BillableHours := b, NonBillableHours := n } = calculateHours w) ∧
    (∀ n2 : HarvestReport,
      (calculateHours { w with NonBillableEntries := n2 }).BillableHours
        = (calculateHours w).BillableHours) ∧
    (∀ b2 : HarvestReport,
      (calculateHours { w with BillableEntries := b2 }).NonBillableHours
        = (calculateHours w).NonBillableHours) ∧
    (calculateHours w).BillableEntries = w.BillableEntries ∧
    (calculateHours w).NonBillableEntries = w.NonBillableEntries ∧
    (calculateHours w).Start = w.Start ∧ (calculateHours w).End = w.End ∧
    (calculateHours w).Of = w.Of ∧ (calculateHours w).Pto = w.Pto ∧
    sumHours [] = Float64.zero ∧
    sumHours es = sumHours es2 ∧
    (calculateHours { w with BillableEntries := es }).BillableHours
      = (calculateHours { w with BillableEntries := es2 }).BillableHours ∧
    (calculateHours { w with NonBillableEntries := es }).NonBillableHours
      = (calculateHours { w with NonBillableEntries := es2 }).NonBillableHours := by
  have hsum : sumHours es = sumHours es2 := by
    rw [sumHours_exact j hj es hex, sumHours_exact j hj es2 (ExactHours_perm j es es2 hperm hex),
      (hperm.map _).sum_eq]
  refine ⟨calculateHours_billable w, calculateHours_nonBillable w, fun _ _ => rfl,
    fun _ => rfl, fun _ => rfl, rfl, rfl, rfl, rfl, rfl, rfl, rfl, hsum, ?_, ?_⟩
  · rw [calculateHours_billable, calculateHours_billable]
    exact hsum
  · rw [calculateHours_nonBillable, calculateHours_nonBillable]
    exact hsum

set_option maxRecDepth 100000 in
/-- C5 (amended) at the entries 2.5 h and 8 h, which are 10 and 32 quarters of an hour, and
their reversal. -/
theorem C5_calculateHours_sums_witness :
    ExactHours 1072 [entryOfHours (Float64.ofRatio false 5 2),
      entryOfHours (Float64.ofRatio false 8 1)] ∧
    sumHours [entryOfHours (Float64.ofRatio false 5 2), entryOfHours (Float64.ofRatio false 8 1)]
      = sumHours [entryOfHours (Float64.ofRatio false 8 1),
          entryOfHours (Float64.ofRatio false 5 2)] := by
  have hex : ExactHours 1072 [entryOfHours (Float64.ofRatio false 5 2),
      entryOfHours (Float64.ofRatio false 8 1)] := by
    constructor
    · intro e he
      simp only [List.mem_cons, List.mem_singleton, List.not_mem_nil, or_false] at he
      rcases he with rfl | rfl
      · decide!
      · decide!
    · decide!
  exact ⟨hex, (C5_calculateHours_sums (newWeek (time.Date 2024 3 4) (time.Date 2024 3 10)) 1072
    _ _ (by decide) hex (List.reverse_perm _).symm).2.2.2.2.2.2.2.2.2.2.2.2.1⟩

/-- C6: when the last row of the ledger has a cell in column 7, processing the week raises no
error; the previous over/under used for the week is 0 when the text of that cell does not
parse (`strconv.ParseFloat` answers an error, as it does for the empty string) and the parsed
value when it does. -/
theorem C6_previous_balance (lib : Strconv) (config : Config) (sheet : Sheet) (week : Week)
    (pto : Float64) (billable nonBillable : HarvestReport) (row : List Cell) (cell : Cell)
    (hrow : sheet.Rows.getLast? = some row) (hcell : row.get? 7 = some cell) :
    ∃ r : WeekResult, processWeek lib config sheet week pto billable nonBillable = .ok r ∧
      (lib.ParseFloat cell.Value = none → r.previousOverUnder = Float64.zero) ∧
      (∀ v : Float64, lib.ParseFloat cell.Value = some v → r.previousOverUnder = v) ∧
      r.overUnder = (r.total + r.previousOverUnder) - Float64.quota := by
  have h := readPrevious_ok lib sheet row cell hrow hcell
  refine ⟨_, processWeek_ok lib config sheet week pto billable nonBillable _ _ h, ?_, ?_, rfl⟩
  · intro hp
    simp only [hp, Option.getD_none]
  · intro v hp
    simp only [hp, Option.getD_some]

/-- C6 at a ledger whose last row holds the empty string in column 7, with a parser that
rejects the empty string. -/
theorem C6_previous_balance_witness :
    (⟨[List.replicate 10 (cellOf "")]⟩ : Sheet).Rows.getLast?
      = some (List.replicate 10 (cellOf "")) ∧
    (List.replicate 10 (cellOf "")).get? 7 = some (cellOf "") ∧
    ∃ r : WeekResult,
      processWeek ⟨fun s => if s = "" then none else some Float64.zero, fun _ => ""⟩
        ⟨"", "", "", "", "", "", ""⟩ ⟨[List.replicate 10 (cellOf "")]⟩
        (newWeek (time.Date 2024 3 4) (time.Date 2024 3 10)) Float64.zero [] [] = .ok r ∧
      r.previousOverUnder = Float64.zero := by
  refine ⟨by decide, by decide, ?_⟩
  obtain ⟨r, h1, h2, -⟩ :=
    C6_previous_balance ⟨fun s => if s = "" then none else some Float64.zero, fun _ => ""⟩
      ⟨"", "", "", "", "", "", ""⟩ ⟨[List.replicate 10 (cellOf "")]⟩
      (newWeek (time.Date 2024 3 4) (time.Date 2024 3 10)) Float64.zero [] []
      (List.replicate 10 (cellOf "")) (cellOf "") (by decide) (by decide)
  exact ⟨r, h1, h2 (by decide)⟩

/-- C7: when the sheet has no rows, or its last row has fewer than 8 cells, reading the previous
balance indexes out of range: the run panics, and no previous balance (in particular not 0)
is produced. -/
theorem C7_absent_cell_panics (lib : Strconv) (config : Config) (sheet : Sheet) (week : Week)
    (pto : Float64) (billable nonBillable : HarvestReport)
    (h : sheet.Rows = [] ∨ ∃ row, sheet.Rows.getLast? = some row ∧ row.length < 8) :
    readPrevious lib sheet = .error .Panic ∧
    processWeek lib config sheet week pto billable nonBillable = .error .Panic := by
  have hp := readPrevious_panic lib sheet h
  refine ⟨hp, ?_⟩
  unfold processWeek
  simp only [hp, bind, Except.bind]

/-- C7 at the sheet without rows. -/
theorem C7_absent_cell_panics_witness :
    ((⟨[]⟩ : Sheet).Rows = [] ∨
      ∃ row, (⟨[]⟩ : Sheet).Rows.getLast? = some row ∧ row.length < 8) ∧
    readPrevious ⟨fun _ => none, fun _ => ""⟩ ⟨[]⟩ = .error .Panic ∧
    processWeek ⟨fun _ => none, fun _ => ""⟩ ⟨"", "", "", "", "", "", ""⟩ ⟨[]⟩
      (newWeek (time.Date 2024 3 4) (time.Date 2024 3 10)) Float64.zero [] []
      = .error .Panic :=
  ⟨Or.inl rfl, C7_absent_cell_panics ⟨fun _ => none, fun _ => ""⟩ ⟨"", "", "", "", "", "", ""⟩
    ⟨[]⟩ (newWeek (time.Date 2024 3 4) (time.Date 2024 3 10)) Float64.zero [] [] (Or.inl rfl)⟩

/-- C10: for every ledger whose previous balance can be read and every week, the updates of a
week with at least one billable entry all target rows strictly after the last row of the
sheet; but the updates of a week with no billable entries are the three summary updates
(columns 7, 8 and 9) and all three target the last row of the sheet itself, a row persisted
before. -/
theorem C10_summary_row (lib : Strconv) (config : Config) (sheet : Sheet) (week : Week)
    (pto : Float64) (billable nonBillable : HarvestReport) (row : List Cell) (cell : Cell)
    (hrow : sheet.Rows.getLast? = some row) (hcell : row.get? 7 = some cell) :
    ∃ r : WeekResult, processWeek lib config sheet week pto billable nonBillable = .ok r ∧
      (billable ≠ [] → ∀ u ∈ r.updates, sheet.lastRow < u.row) ∧
      (billable = [] →
        r.updates =
          [⟨sheet.lastRow, 7, lib.FormatFloat r.overUnder⟩,
           ⟨sheet.lastRow, 8, lib.FormatFloat pto⟩,
           ⟨sheet.lastRow, 9, lib.FormatFloat r.week.NonBillableHours⟩]) := by
  have h := readPrevious_ok lib sheet row cell hrow hcell
  refine ⟨_, processWeek_ok lib config sheet week pto billable nonBillable _ _ h, ?_, ?_⟩
  · intro hne u hu
    have hlen : 0 < billable.length := List.length_pos.mpr hne
    obtain ⟨h1, h2⟩ := foldl_entryUpdates lib config
      (calculateHours { week with
        Pto := pto, BillableEntries := billable, NonBillableEntries := nonBillable })
      billable sheet.lastRow []
    simp only [List.mem_append, List.mem_cons, List.mem_singleton, List.not_mem_nil,
      or_false] at hu
    rcases hu with hu | rfl | rfl | rfl
    · rcases h2 u hu with h3 | h3
      · simp at h3
      · exact h3.1
    all_goals (simp only; rw [h1]; omega)
  · intro he
    subst he
    simp only [List.foldl_nil, List.nil_append, calculateHours_nonBillable]

/-- C10 at a ledger of one row of ten cells and a week without billable entries. -/
theorem C10_summary_row_witness :
    (⟨[List.replicate 10 (cellOf "")]⟩ : Sheet).Rows.getLast?
      = some (List.replicate 10 (cellOf "")) ∧
    (List.replicate 10 (cellOf "")).get? 7 = some (cellOf "") ∧
    ∃ r : WeekResult,
      processWeek ⟨fun _ => none, fun _ => ""⟩ ⟨"", "", "", "", "", "", ""⟩
        ⟨[List.replicate 10 (cellOf "")]⟩
        (newWeek (time.Date 2024 3 4) (time.Date 2024 3 10)) Float64.zero [] [] = .ok r ∧
      r.updates = [⟨0, 7, ""⟩, ⟨0, 8, ""⟩, ⟨0, 9, ""⟩] := by
  refine ⟨by decide, by decide, ?_⟩
  obtain ⟨r, h1, -, h3⟩ :=
    C10_summary_row ⟨fun _ => none, fun _ => ""⟩ ⟨"", "", "", "", "", "", ""⟩
      ⟨[List.replicate 10 (cellOf "")]⟩
      (newWeek (time.Date 2024 3 4) (time.Date 2024 3 10)) Float64.zero [] []
      (List.replicate 10 (cellOf "")) (cellOf "") (by decide) (by decide)
  exact ⟨r, h1, h3 rfl⟩

end Scythe

namespace Scythe

/-! ## Day steps across a zone transition -/

namespace zoned

theorem findEndDate_stuck (t : Time) (hw : t.Weekday ≠ time.Sunday)
    (hfix : t.AddDate 0 0 1 = t) (fuel : Nat) : findEndDate fuel t = .error .OutOfFuel := by
  induction fuel with
  | zero => rfl
  | succ f ih =>
    unfold findEndDate
    rw [if_pos hw, hfix]
    exact ih

theorem findEndDate_step (t u : Time) (hw : t.Weekday ≠ time.Sunday)
    (hu : t.AddDate 0 0 1 = u) (h : ∀ fuel, findEndDate fuel u = .error .OutOfFuel)
    (fuel : Nat) : findEndDate fuel t = .error .OutOfFuel := by
  cases fuel with
  | zero => rfl
  | succ f =>
    unfold findEndDate
    rw [if_pos hw, hu]
    exact h f

theorem apia_thursday_stuck (fuel : Nat) :
    findEndDate fuel (zoned.Date 2011 12 29 0 0 0 apia) = .error .OutOfFuel :=
  findEndDate_stuck _ (by decide!) (by decide!) fuel

theorem apia_wednesday_stuck (fuel : Nat) :
    findEndDate fuel (zoned.Date 2011 12 28 0 0 0 apia) = .error .OutOfFuel :=
  findEndDate_step _ _ (by decide!) (by decide!) apia_thursday_stuck fuel

theorem apia_monday_stuck (fuel : Nat) :
    findEndDate fuel (zoned.Date 2011 12 26 0 0 0 apia) = .error .OutOfFuel :=
  findEndDate_step _ (zoned.Date 2011 12 27 0 0 0 apia) (by decide!) (by decide!)
    (findEndDate_step _ _ (by decide!) (by decide!) apia_wednesday_stuck) fuel

theorem apia_morning_stuck (fuel : Nat) :
    findEndDate fuel (zoned.Date 2011 12 28 9 0 0 apia) = .error .OutOfFuel :=
  findEndDate_step _ (zoned.Date 2011 12 29 9 0 0 apia) (by decide!) (by decide!)
    (findEndDate_stuck _ (by decide!) (by decide!)) fuel

theorem apia_weeksLoop_stuck (fuel : Nat) :
    weeksLoop fuel (zoned.Date 2011 12 26 0 0 0 apia) (zoned.Date 2012 1 1 0 0 0 apia) []
      = .error .OutOfFuel := by
  cases fuel with
  | zero => rfl
  | succ f =>
    have h1 : ((zoned.Date 2011 12 26 0 0 0 apia).Format "2006-01-02"
        != (zoned.Date 2012 1 1 0 0 0 apia).Format "2006-01-02") = true := by decide!
    have h2 : (zoned.Date 2011 12 26 0 0 0 apia).Weekday = time.Monday := by decide!
    unfold weeksLoop
    rw [if_pos h1, if_pos h2, apia_monday_stuck f]

end zoned

/-! ## Claims about the dates in a location with a skipped local day -/

/-- C1 fails in the program's local time zone when a zone transition removes the local time a
day step lands on.  In Pacific/Apia, where Friday 2011-12-30 does not exist, the date parsed
from "2011-12-28" steps to Thursday 2011-12-29 and `AddDate(0, 0, +1)` then returns the same
Thursday, so `findEndDate` never returns for any fuel.  In America/Sao_Paulo, where midnight
of Monday 1997-10-06 does not exist, `AddDate(0, 0, -1)` from 1997-10-07 00:00 returns Sunday
1997-10-05 23:00, so `findStartDate` returns Monday 1997-09-29, 8 days before the date and
not the latest Monday on or before it (1997-10-06). -/
theorem C1_snap_fails_at_zone_gap :
    zoned.ParseInLocation "2006-01-02" "2011-12-28" zoned.apia
      = some (zoned.Date 2011 12 28 0 0 0 zoned.apia) ∧
    (zoned.Date 2011 12 28 0 0 0 zoned.apia).AddDate 0 0 1
      = zoned.Date 2011 12 29 0 0 0 zoned.apia ∧
    (zoned.Date 2011 12 29 0 0 0 zoned.apia).AddDate 0 0 1
      = zoned.Date 2011 12 29 0 0 0 zoned.apia ∧
    (zoned.Date 2011 12 29 0 0 0 zoned.apia).Format "2006-01-02" = "2011-12-29" ∧
    (zoned.Date 2011 12 29 0 0 0 zoned.apia).Weekday = 4 ∧
    (¬ ∃ fuel r, zoned.findEndDate fuel (zoned.Date 2011 12 28 0 0 0 zoned.apia) = .ok r) ∧
    zoned.ParseInLocation "2006-01-02" "1997-10-07" zoned.saoPaulo
      = some (zoned.Date 1997 10 7 0 0 0 zoned.saoPaulo) ∧
    (zoned.Date 1997 10 7 0 0 0 zoned.saoPaulo).AddDate 0 0 (-1)
      = zoned.Date 1997 10 5 23 0 0 zoned.saoPaulo ∧
    zoned.findStartDate 9 (zoned.Date 1997 10 7 0 0 0 zoned.saoPaulo)
      = .ok (zoned.Date 1997 9 29 23 0 0 zoned.saoPaulo) ∧
    (zoned.Date 1997 9 29 23 0 0 zoned.saoPaulo).Format "2006-01-02" = "1997-09-29" ∧
    (zoned.Date 1997 10 7 0 0 0 zoned.saoPaulo).abs / 86400
      - (zoned.Date 1997 9 29 23 0 0 zoned.saoPaulo).abs / 86400 = 8 ∧
    (zoned.Date 1997 10 6 12 0 0 zoned.saoPaulo).Weekday = time.Monday ∧
    (zoned.Date 1997 10 6 12 0 0 zoned.saoPaulo).Format "2006-01-02" = "1997-10-06" := by
  refine ⟨?_, ?_, ?_, ?_, ?_, ?_, ?_, ?_, ?_, ?_, ?_, ?_, ?_⟩
  · decide!
  · decide!
  · decide!
  · decide!
  · decide!
  · rintro ⟨fuel, r, h⟩
    rw [zoned.apia_wednesday_stuck fuel] at h
    cases h
  · decide!
  · decide!
  · decide!
  · decide!
  · decide!
  · decide!
  · decide!

/-- C2 fails in Pacific/Apia for the range from Monday 2011-12-26 to Sunday 2012-01-01 (the
inputs "2011-12-26" and "2012-01-01"): the start is a Monday before the end, and the loop
calls `findEndDate` on it, which walks to Thursday 2011-12-29 and stays there, so the
partition returns no week list for any fuel.  In UTC the same range yields its one week. -/
theorem C2_partition_hangs_at_zone_gap :
    zoned.resolveStartDate 7 (zoned.Date 2011 12 20 12 0 0 zoned.apia) "2011-12-26"
      = .ok (zoned.Date 2011 12 26 0 0 0 zoned.apia) ∧
    zoned.resolveEndDate 7 (zoned.Date 2011 12 20 12 0 0 zoned.apia) "2012-01-01"
      = .ok (zoned.Date 2012 1 1 0 0 0 zoned.apia) ∧
    (zoned.Date 2011 12 26 0 0 0 zoned.apia).Weekday = time.Monday ∧
    (zoned.Date 2012 1 1 0 0 0 zoned.apia).Weekday = time.Sunday ∧
    (zoned.Date 2011 12 26 0 0 0 zoned.apia).unix < (zoned.Date 2012 1 1 0 0 0 zoned.apia).unix ∧
    (¬ ∃ fuel ws, zoned.partitionWeeks fuel (zoned.Date 2011 12 26 0 0 0 zoned.apia)
      (zoned.Date 2012 1 1 0 0 0 zoned.apia) = .ok ws) ∧
    zoned.partitionWeeks 13 (zoned.Date 2011 12 26 0 0 0 zoned.utc)
      (zoned.Date 2012 1 1 0 0 0 zoned.utc)
      = .ok [zoned.newWeek (zoned.Date 2011 12 26 0 0 0 zoned.utc)
          (zoned.Date 2012 1 1 0 0 0 zoned.utc)] := by
  refine ⟨?_, ?_, ?_, ?_, ?_, ?_, ?_⟩
  · decide!
  · decide!
  · decide!
  · decide!
  · decide!
  · rintro ⟨fuel, ws, h⟩
    unfold zoned.partitionWeeks at h
    rw [zoned.apia_weeksLoop_stuck fuel] at h
    cases h
  · decide!

/-- C9 fails in Pacific/Apia for now = Wednesday 2011-12-28 09:00 with both inputs empty: the
default start is Monday 2011-12-26, but the default end is never produced for any fuel,
because `findEndDate(now)` steps to Thursday 2011-12-29 09:00 and `AddDate(0, 0, +1)` returns
that same time (Friday 2011-12-30 does not exist there). -/
theorem C9_default_end_hangs_at_zone_gap :
    zoned.resolveStartDate 7 (zoned.Date 2011 12 28 9 0 0 zoned.apia) ""
      = .ok (zoned.Date 2011 12 26 9 0 0 zoned.apia) ∧
    (zoned.Date 2011 12 28 9 0 0 zoned.apia).AddDate 0 0 1
      = zoned.Date 2011 12 29 9 0 0 zoned.apia ∧
    (zoned.Date 2011 12 29 9 0 0 zoned.apia).AddDate 0 0 1
      = zoned.Date 2011 12 29 9 0 0 zoned.apia ∧
    (zoned.Date 2011 12 29 9 0 0 zoned.apia).Weekday = 4 ∧
    (¬ ∃ fuel e, zoned.resolveEndDate fuel (zoned.Date 2011 12 28 9 0 0 zoned.apia) ""
      = .ok e) := by
  refine ⟨?_, ?_, ?_, ?_, ?_⟩
  · decide!
  · decide!
  · decide!
  · decide!
  · rintro ⟨fuel, e, h⟩
    unfold zoned.resolveEndDate at h
    rw [zoned.apia_morning_stuck fuel] at h
    cases h

end Scythe

namespace Scythe

/-! ## Locations without transitions: the located program is the calendar program -/

namespace zoned

theorem lookup_fixed (l : Location) (h : l.tx = []) (sec : Int) :
    l.lookup sec = (l.offset0, alpha, omega) := by
  unfold Location.lookup
  rw [h]
  rfl

theorem Date_fixed (year month day hour min sec : Int) (loc : Location) (h : loc.tx = []) :
    zoned.Date year month day hour min sec loc
      = ⟨wallSeconds year month day hour min sec - 62135596800 - loc.offset0, loc⟩ := by
  unfold zoned.Date
  simp only [lookup_fixed loc h]
  split_ifs with h0 h1
  · rfl
  · rfl
  · have : loc.offset0 = 0 := by simpa using h0
    rw [this, sub_zero]

theorem wallSeconds_in_range (year month day hour min sec : Int)
    (hh : 0 ≤ hour ∧ hour < 24) (hm : 0 ≤ min ∧ min < 60) (hs : 0 ≤ sec ∧ sec < 60) :
    wallSeconds year month day hour min sec
      = (time.Date year month day).abs * 86400 + (hour * 3600 + min * 60 + sec) := by
  have e1 : sec / 60 = 0 := by omega
  have e2 : sec % 60 = sec := by omega
  have e3 : min / 60 = 0 := by omega
  have e4 : min % 60 = min := by omega
  have e5 : hour / 24 = 0 := by omega
  have e6 : hour % 24 = hour := by omega
  simp only [wallSeconds, time.Date, e1, e2, e3, e4, e5, e6, add_zero]

theorem Time.Date_day (t : Time) : t.Date = t.day.Date := rfl

theorem AddDate_fixed (t : Time) (h : t.loc.tx = []) (n : Int) :
    t.AddDate 0 0 n = ⟨t.unix + 86400 * n, t.loc⟩ := by
  have hd := time.Date_Date t.day
  have hclock : t.Clock = (t.abs % 86400 / 3600, t.abs % 86400 % 3600 / 60,
      t.abs % 86400 % 60) := rfl
  have habs : t.abs = t.unix + t.loc.offset0 + 62135596800 := by
    unfold Time.abs
    rw [lookup_fixed t.loc h]
  unfold Time.AddDate
  rw [hclock, Time.Date_day]
  simp only [add_zero]
  rw [Date_fixed _ _ _ _ _ _ _ h,
    wallSeconds_in_range _ _ _ _ _ _ (by omega) (by omega) (by omega),
    time.Date_day_add, hd]
  simp only [Time.day]
  congr 1
  omega

theorem day_AddDate_fixed (t : Time) (h : t.loc.tx = []) (n : Int) :
    (t.AddDate 0 0 n).day = t.day.AddDate 0 0 n := by
  have habs : ∀ u : Time, u.loc.tx = [] → u.abs = u.unix + u.loc.offset0 + 62135596800 := by
    intro u hu
    unfold Time.abs
    rw [lookup_fixed u.loc hu]
  rw [time.AddDate_days, AddDate_fixed t h n]
  simp only [Time.day]
  rw [habs ⟨t.unix + 86400 * n, t.loc⟩ h, habs t h]
  congr 1
  simp only
  omega

theorem loc_AddDate_fixed (t : Time) (h : t.loc.tx = []) (n : Int) :
    (t.AddDate 0 0 n).loc.tx = [] := by
  rw [AddDate_fixed t h n]
  exact h

theorem Weekday_day (t : Time) : t.Weekday = t.day.Weekday := by
  simp only [Time.Weekday, Time.day, time.Time.Weekday]
  omega

theorem Format_day (t : Time) (layout : String) : t.Format layout = t.day.Format layout := rfl

theorem findStartDate_fixed (fuel : Nat) (t : Time) (h : t.loc.tx = []) :
    (findStartDate fuel t).map Time.day = Scythe.findStartDate fuel t.day := by
  induction fuel generalizing t with
  | zero => rfl
  | succ f ih =>
    unfold findStartDate Scythe.findStartDate
    rw [← Weekday_day]
    split_ifs with hw
    · rw [ih _ (loc_AddDate_fixed t h _), day_AddDate_fixed t h]
    · rfl

theorem findEndDate_fixed (fuel : Nat) (t : Time) (h : t.loc.tx = []) :
    (findEndDate fuel t).map Time.day = Scythe.findEndDate fuel t.day := by
  induction fuel generalizing t with
  | zero => rfl
  | succ f ih =>
    unfold findEndDate Scythe.findEndDate
    rw [← Weekday_day]
    split_ifs with hw
    · rw [ih _ (loc_AddDate_fixed t h _), day_AddDate_fixed t h]
    · rfl

theorem newWeek_calendar (d e : Time) :
    (newWeek d e).calendar = Scythe.newWeek d.day e.day := rfl

theorem weeksLoop_fixed (fuel : Nat) (d end_date : Time) (weeks : List Week)
    (h : d.loc.tx = []) :
    (weeksLoop fuel d end_date weeks).map (List.map Week.calendar)
      = Scythe.weeksLoop fuel d.day end_date.day (weeks.map Week.calendar) := by
  induction fuel generalizing d weeks with
  | zero => rfl
  | succ f ih =>
    unfold weeksLoop Scythe.weeksLoop
    rw [Format_day d, Format_day end_date, ← Weekday_day]
    split_ifs with hf hw
    · have he := findEndDate_fixed f d h
      cases hz : findEndDate f d with
      | error err =>
        rw [hz] at he
        simp only [Except.map] at he
        rw [← he]
        rfl
      | ok e =>
        rw [hz] at he
        simp only [Except.map] at he
        rw [← he]
        simp only
        rw [ih _ _ (loc_AddDate_fixed d h _), day_AddDate_fixed d h]
        simp only [List.map_append, List.map_cons, List.map_nil, newWeek_calendar]
    · rw [ih _ _ (loc_AddDate_fixed d h _), day_AddDate_fixed d h]
    · rfl

/-- In a location without transitions (UTC, or any fixed offset) the program over located
times is the program over calendar days: snapping either way and the week partition commute
with reducing the times to their local calendar days. -/
theorem calendar_model_of_fixed_location (fuel : Nat) (t end_date : Time) (h : t.loc.tx = []) :
    (findStartDate fuel t).map Time.day = Scythe.findStartDate fuel t.day ∧
    (findEndDate fuel t).map Time.day = Scythe.findEndDate fuel t.day ∧
    (partitionWeeks fuel t end_date).map (List.map Week.calendar)
      = Scythe.partitionWeeks fuel t.day end_date.day :=
  ⟨findStartDate_fixed fuel t h, findEndDate_fixed fuel t h, weeksLoop_fixed fuel t end_date [] h⟩

end zoned

end Scythe
